import Mathlib

/-! Verification of the cafeteria discrete-event simulation (`src/app.py`).

This file gives a shallow embedding of the simulation core of `app.py`
(class `KantinPrasmananDES` and its processes `proses_mahasiswa`,
`proses_kedatangan`, `run_simulation`) as an executable small-step machine,
and proves / refutes the frozen claims about it.

Modelling choices, faithful to the `simpy` library semantics used by the code:

* Simulated time is `ℚ` (the Python floats are real-valued; no float rounding
  is relevant to any claim, all claims are order/arithmetic claims).
* The event queue orders events by (time, priority, sequence number);
  process-initialization events are urgent (priority 0), all other events are
  normal (priority 1), exactly as in `simpy`.
* `Resource.request()` grants at call time when occupancy < capacity
  (appending the request and triggering the head of the FIFO queue) and
  schedules the resumption of the granted process as a same-time event;
  a `release()` (the `with`-block exit) decrements occupancy at call time and
  schedules a trigger event which grants the head waiter when processed.
* `Store.put(x)` appends the item at call time and schedules the put event;
  when the put event is processed it first wakes (at most) the head pending
  getter, then resumes the putting process.  `Store.get()` pops the oldest
  item at call time when the store is non-empty, otherwise the getter joins
  the pending-getter queue and blocks.
* All randomness of the run is a stream `ℕ → ℚ` of raw draws consumed in
  program order; `random.uniform(a, b)` is modelled as `a + (b - a) * draw`
  and `random.expovariate(1/mean)` as `mean * draw` (a nonnegative draw
  yields a nonnegative delay, matching the actual distributions' supports).
  The stream is a deterministic function of the seed in the real program.
* `statistics` (`mahasiswa_data`, `queue_lengths`) are modelled exactly;
  in addition the machine keeps pure trace instrumentation that the Python
  object state also determines: the log of staff-pool grants and counters of
  batch-buffer insertions/removals.  These fields are observers only and
  never influence control flow.
* `np.argmin` on Python raises on an empty list and the code would crash on
  a config with zero groups; the machine models the entity as permanently
  suspended in that case (it produces no further observable behaviour, as in
  the crashed run).
-/

namespace Kantin

/-- `Config` of `app.py` (dataclass, lines 14-25).  Counts are `Int` so that
the invalid (non-positive) configurations of claim C3 are expressible. -/
structure Config where
  NUM_MAHASISWA : Int := 500
  NUM_OMPRENG : Int := 180
  NUM_STAFF_PER_KELOMPOK : Int := 2
  NUM_KELOMPOK : Int := 2
  MIN_SERVICE_TIME : ℚ := 1
  MAX_SERVICE_TIME : ℚ := 3
  MEAN_INTERARRIVAL : ℚ := 120 / 500
  START_HOUR : Int := 7
  START_MINUTE : Int := 0
  RANDOM_SEED : Int := 42
  deriving DecidableEq, Repr

/-- One row of `statistics['mahasiswa_data']` (lines 76-80 of `app.py`). -/
structure MhsRecord where
  id : Nat
  datang : ℚ
  mulai : ℚ
  selesai : ℚ
  tunggu : ℚ
  layanan : ℚ
  kelompok : Nat
  deriving DecidableEq, Repr

/-- One row of `statistics['queue_lengths']` (line 66 of `app.py`). -/
structure QSample where
  time : ℚ
  length : Nat
  deriving DecidableEq, Repr

/-- A `simpy.Resource`: capacity, occupancy (`len(users)`) and the FIFO queue
of pending requesters (entity ids). -/
structure Resrc where
  capacity : Int
  users : Nat
  queue : List Nat
  deriving DecidableEq, Repr

/-- A `simpy.Store`: FIFO item list and FIFO queue of blocked getters. -/
structure Store where
  items : List Nat
  getQueue : List Nat
  deriving DecidableEq, Repr

/-- Program counter of one entity process (`proses_mahasiswa`): the
continuation to run at its next resumption.  Each constructor corresponds to
one suspension point of the Python generator. -/
inductive EPC where
  | start             -- about to record `waktu_datang` and request `petugas_lauk`
  | afterLaukReq      -- lauk granted: start handling timeout (uniform 0.5..1)
  | afterLaukTimeout  -- release lauk; put own id into `antrian_angkut`
  | afterAngkutPut    -- put processed: threshold test (`len >= 4`)
  | afterAngkutReq    -- angkut granted: start transport timeout (uniform 0.3..0.8)
  | afterAngkutTimeout  -- compute `min(5, len(items))` and start the get loop
  | afterDrainGet     -- one drain `get` completed
  | afterNasiReq      -- nasi granted: handling timeout (uniform 0.5..1)
  | afterNasiTimeout  -- release nasi; put own id into main queue `antrian`
  | afterAntrianPut   -- sample queue length, select group, record `waktu_mulai`, request staff
  | afterStaffReq     -- staff granted: draw service time, start service timeout
  | afterStaffTimeout -- release staff; `antrian.get()`
  | afterAntrianGet   -- append own record to `mahasiswa_data`
  | done
  deriving DecidableEq, Repr

/-- Per-entity state: program counter and the local variables of
`proses_mahasiswa` (`waktu_datang`, `waktu_mulai`, `svc`, `kelompok_idx`
and the remaining iteration count of the drain `for` loop). -/
structure Ent where
  pc : EPC
  datang : ℚ
  mulai : ℚ
  svc : ℚ
  idx : Nat
  drainLeft : Nat
  deriving DecidableEq, Repr

/-- A process identifier: the arrival generator or entity `i`. -/
inductive Pid where
  | gen
  | ent (i : Nat)
  deriving DecidableEq, Repr

/-- The resources of the model (`petugas_lauk`, `petugas_angkut`,
`petugas_nasi`, `kelompok_staff[j]`). -/
inductive ResId where
  | lauk
  | angkut
  | nasi
  | staff (j : Nat)
  deriving DecidableEq, Repr

/-- The two stores (`antrian_angkut`, `antrian`). -/
inductive StoreId where
  | angkutQ
  | antrianQ
  deriving DecidableEq, Repr

/-- What happens when a scheduled event is processed. -/
inductive Act where
  | resume (p : Pid)                  -- plain resumption of a process
  | storePut (s : StoreId) (p : Pid)  -- put event: wake head getter, then resume putter
  | releaseRes (r : ResId)            -- release trigger: grant head waiter
  deriving DecidableEq, Repr

/-- A scheduled event: due time, priority (0 = process initialization,
urgent; 1 = normal), insertion sequence number, action. -/
structure Event where
  time : ℚ
  prio : Nat
  seq : Nat
  act : Act
  deriving DecidableEq, Repr

/-- Full machine state: clock, event queue, resources, stores, the processes,
the statistics, and observer-only trace instrumentation. -/
structure SimState where
  cfg : Config
  now : ℚ
  seq : Nat
  events : List Event
  rcount : Nat
  lauk : Resrc
  angkut : Resrc
  nasi : Resrc
  staff : List Resrc
  angkutQ : Store
  antrianQ : Store
  genCount : Nat
  ents : List Ent
  recs : List MhsRecord
  samples : List QSample
  -- observer-only instrumentation (never read by the transition function):
  grants : List (Nat × ℚ × Nat)  -- (entity, time, group) staff-pool grants
  putsAngkut : Nat               -- total insertions into `antrian_angkut`
  getsAngkut : Nat               -- total removals from `antrian_angkut`
  deriving DecidableEq, Repr

/-- Strict ordering of events by (time, priority, sequence number): the
`simpy` heap order. -/
def evBefore (a b : Event) : Bool :=
  a.time < b.time ∨ (a.time = b.time ∧
    (a.prio < b.prio ∨ (a.prio = b.prio ∧ a.seq < b.seq)))

/-- The earliest event of the queue, if any. -/
def findMin : List Event → Option Event
  | [] => none
  | e :: rest =>
    match findMin rest with
    | none => some e
    | some m => if evBefore m e then some m else some e

/-- Append a fresh event. -/
def sched (σ : SimState) (t : ℚ) (prio : Nat) (a : Act) : SimState :=
  { σ with events := σ.events ++ [⟨t, prio, σ.seq, a⟩], seq := σ.seq + 1 }

/-- Resource lookup; out-of-range staff indices give an ungrantable dummy
(capacity 0), modelling that the Python code would crash there. -/
def getRes (σ : SimState) : ResId → Resrc
  | .lauk => σ.lauk
  | .angkut => σ.angkut
  | .nasi => σ.nasi
  | .staff j => σ.staff.getD j ⟨0, 0, []⟩

def setRes (σ : SimState) : ResId → Resrc → SimState
  | .lauk, r => { σ with lauk := r }
  | .angkut, r => { σ with angkut := r }
  | .nasi, r => { σ with nasi := r }
  | .staff j, r => { σ with staff := σ.staff.set j r }

def getStore (σ : SimState) : StoreId → Store
  | .angkutQ => σ.angkutQ
  | .antrianQ => σ.antrianQ

def setStore (σ : SimState) : StoreId → Store → SimState
  | .angkutQ, s => { σ with angkutQ := s }
  | .antrianQ, s => { σ with antrianQ := s }

/-- `simpy BaseResource._trigger_put`: examine the head of the wait queue and
grant it if occupancy is below capacity (at most one grant per trigger). -/
def reqTrigger (r : Resrc) : Resrc × Option Nat :=
  match r.queue with
  | [] => (r, none)
  | w :: ws =>
    if (r.users : Int) < r.capacity then
      ({ r with users := r.users + 1, queue := ws }, some w)
    else (r, none)

/-- `simpy Store._trigger_get`: pop the oldest item for the head pending
getter when the store is non-empty (at most one per trigger). -/
def getTrigger (s : Store) : Store × Option Nat :=
  match s.getQueue, s.items with
  | w :: ws, _ :: ys => (⟨ys, ws⟩, some w)
  | _, _ => (s, none)

/-- Record a staff grant in the observer log. -/
def logGrant (σ : SimState) (rid : ResId) (w : Nat) : SimState :=
  match rid with
  | .staff j => { σ with grants := σ.grants ++ [(w, σ.now, j)] }
  | _ => σ

/-- `resource.request()` by entity `i`: append to the FIFO queue and trigger;
a granted requester's resumption is scheduled at the current instant. -/
def requestRes (σ : SimState) (rid : ResId) (i : Nat) : SimState :=
  let r := getRes σ rid
  let r1 := { r with queue := r.queue ++ [i] }
  match reqTrigger r1 with
  | (r2, some w) => sched (logGrant (setRes σ rid r2) rid w) σ.now 1 (.resume (.ent w))
  | (r2, none) => setRes σ rid r2

/-- `resource.release()` at call time (the `with`-block exit): decrement
occupancy and schedule the release-trigger event. -/
def releaseCall (σ : SimState) (rid : ResId) : SimState :=
  let r := getRes σ rid
  sched (setRes σ rid { r with users := r.users - 1 }) σ.now 1 (.releaseRes rid)

/-- Bump the removal counter when the store is the batch buffer. -/
def countGet (σ : SimState) (sid : StoreId) : SimState :=
  match sid with
  | .angkutQ => { σ with getsAngkut := σ.getsAngkut + 1 }
  | .antrianQ => σ

/-- `store.get()` by entity `i`: join the getter queue and trigger; if an
item was popped the woken getter's resumption is scheduled now, otherwise the
getter blocks. -/
def storeGetCall (σ : SimState) (sid : StoreId) (i : Nat) : SimState :=
  let s := getStore σ sid
  let s1 := { s with getQueue := s.getQueue ++ [i] }
  match getTrigger s1 with
  | (s2, some w) => sched (countGet (setStore σ sid s2) sid) σ.now 1 (.resume (.ent w))
  | (s2, none) => setStore σ sid s2

/-- `store.put(x)` at call time: append the item and schedule the put event
(whose processing wakes a blocked getter and resumes the putter). -/
def storePutCall (σ : SimState) (sid : StoreId) (x : Nat) (p : Pid) : SimState :=
  let s := getStore σ sid
  let σ1 := setStore σ sid { s with items := s.items ++ [x] }
  let σ2 := match sid with
    | .angkutQ => { σ1 with putsAngkut := σ1.putsAngkut + 1 }
    | .antrianQ => σ1
  sched σ2 σ.now 1 (.storePut sid p)

def setEnt (σ : SimState) (i : Nat) (e : Ent) : SimState :=
  { σ with ents := σ.ents.set i e }

/-- `np.argmin`: index of the first minimum of a list (0 on `[]`). -/
def argminIdx : List Nat → Nat
  | [] => 0
  | [_] => 0
  | x :: y :: xs =>
    let j := argminIdx (y :: xs)
    if x ≤ (y :: xs).getD j 0 then 0 else j + 1

/-- One resumption of entity `i` (its continuation up to the next yield),
following `proses_mahasiswa` line by line. -/
def execEnt (σ : SimState) (stream : ℕ → ℚ) (i : Nat) (e : Ent) : SimState :=
  match e.pc with
  | .start =>
    -- waktu_datang = self.env.now; with self.petugas_lauk.request() as req: yield req
    let σ1 := setEnt σ i { e with datang := σ.now, pc := .afterLaukReq }
    requestRes σ1 .lauk i
  | .afterLaukReq =>
    -- yield self.env.timeout(random.uniform(0.5, 1))
    let x := stream σ.rcount
    let u : ℚ := 1/2 + (1 - 1/2) * x
    let σ1 := { σ with rcount := σ.rcount + 1 }
    let σ2 := setEnt σ1 i { e with pc := .afterLaukTimeout }
    sched σ2 (σ.now + u) 1 (.resume (.ent i))
  | .afterLaukTimeout =>
    -- (exit `with`: release lauk); yield self.antrian_angkut.put(mahasiswa_id)
    let σ1 := releaseCall σ .lauk
    let σ2 := setEnt σ1 i { e with pc := .afterAngkutPut }
    storePutCall σ2 .angkutQ i (.ent i)
  | .afterAngkutPut =>
    -- if len(self.antrian_angkut.items) >= 4: ... request angkut ... else nasi
    if 4 ≤ σ.angkutQ.items.length then
      let σ1 := setEnt σ i { e with pc := .afterAngkutReq }
      requestRes σ1 .angkut i
    else
      let σ1 := setEnt σ i { e with pc := .afterNasiReq }
      requestRes σ1 .nasi i
  | .afterAngkutReq =>
    -- yield self.env.timeout(random.uniform(0.3, 0.8))
    let x := stream σ.rcount
    let u : ℚ := 3/10 + (8/10 - 3/10) * x
    let σ1 := { σ with rcount := σ.rcount + 1 }
    let σ2 := setEnt σ1 i { e with pc := .afterAngkutTimeout }
    sched σ2 (σ.now + u) 1 (.resume (.ent i))
  | .afterAngkutTimeout =>
    -- for _ in range(min(5, len(self.antrian_angkut.items))): yield ...get()
    let n := min 5 σ.angkutQ.items.length
    if n = 0 then
      let σ1 := releaseCall σ .angkut
      let σ2 := setEnt σ1 i { e with pc := .afterNasiReq }
      requestRes σ2 .nasi i
    else
      let σ1 := setEnt σ i { e with drainLeft := n, pc := .afterDrainGet }
      storeGetCall σ1 .angkutQ i
  | .afterDrainGet =>
    if e.drainLeft ≤ 1 then
      -- loop finished: exit `with` (release angkut), then request nasi
      let σ1 := releaseCall σ .angkut
      let σ2 := setEnt σ1 i { e with drainLeft := 0, pc := .afterNasiReq }
      requestRes σ2 .nasi i
    else
      let σ1 := setEnt σ i { e with drainLeft := e.drainLeft - 1 }
      storeGetCall σ1 .angkutQ i
  | .afterNasiReq =>
    -- yield self.env.timeout(random.uniform(0.5, 1))
    let x := stream σ.rcount
    let u : ℚ := 1/2 + (1 - 1/2) * x
    let σ1 := { σ with rcount := σ.rcount + 1 }
    let σ2 := setEnt σ1 i { e with pc := .afterNasiTimeout }
    sched σ2 (σ.now + u) 1 (.resume (.ent i))
  | .afterNasiTimeout =>
    -- (release nasi); yield self.antrian.put(mahasiswa_id)
    let σ1 := releaseCall σ .nasi
    let σ2 := setEnt σ1 i { e with pc := .afterAntrianPut }
    storePutCall σ2 .antrianQ i (.ent i)
  | .afterAntrianPut =>
    -- queue_lengths.append(...); kelompok_idx = np.argmin(...);
    -- waktu_mulai = self.env.now; request kelompok_staff[kelompok_idx]
    let σ1 := { σ with samples := σ.samples ++ [⟨σ.now, σ.antrianQ.items.length⟩] }
    let j := argminIdx (σ.staff.map Resrc.users)
    let σ2 := setEnt σ1 i { e with idx := j, mulai := σ.now, pc := .afterStaffReq }
    requestRes σ2 (.staff j) i
  | .afterStaffReq =>
    -- svc = random.uniform(MIN_SERVICE_TIME, MAX_SERVICE_TIME); yield timeout(svc)
    let x := stream σ.rcount
    let s : ℚ := σ.cfg.MIN_SERVICE_TIME +
      (σ.cfg.MAX_SERVICE_TIME - σ.cfg.MIN_SERVICE_TIME) * x
    let σ1 := { σ with rcount := σ.rcount + 1 }
    let σ2 := setEnt σ1 i { e with svc := s, pc := .afterStaffTimeout }
    sched σ2 (σ.now + s) 1 (.resume (.ent i))
  | .afterStaffTimeout =>
    -- (release staff); yield self.antrian.get()
    let σ1 := releaseCall σ (.staff e.idx)
    let σ2 := setEnt σ1 i { e with pc := .afterAntrianGet }
    storeGetCall σ2 .antrianQ i
  | .afterAntrianGet =>
    -- statistics['mahasiswa_data'].append({...})
    let r : MhsRecord :=
      { id := i, datang := e.datang, mulai := e.mulai, selesai := σ.now,
        tunggu := e.mulai - e.datang, layanan := e.svc, kelompok := e.idx + 1 }
    setEnt { σ with recs := σ.recs ++ [r] } i { e with pc := .done }
  | .done => σ

/-- One resumption of a process. -/
def runProc (σ : SimState) (stream : ℕ → ℚ) : Pid → SimState
  | .gen =>
    -- for i in range(NUM_MAHASISWA): env.process(proses_mahasiswa(i));
    --   yield env.timeout(random.expovariate(1.0 / MEAN_INTERARRIVAL))
    if σ.genCount < σ.cfg.NUM_MAHASISWA.toNat then
      let i := σ.genCount
      let σ1 := { σ with ents := σ.ents ++ [⟨.start, 0, 0, 0, 0, 0⟩],
                         genCount := σ.genCount + 1 }
      let σ2 := sched σ1 σ.now 0 (.resume (.ent i))   -- process init: urgent
      let x := stream σ2.rcount
      let d : ℚ := σ.cfg.MEAN_INTERARRIVAL * x
      let σ3 := { σ2 with rcount := σ2.rcount + 1 }
      sched σ3 (σ.now + d) 1 (.resume .gen)
    else σ
  | .ent i =>
    match σ.ents.get? i with
    | none => σ
    | some e => execEnt σ stream i e

/-- Process one event. -/
def execAct (σ : SimState) (stream : ℕ → ℚ) : Act → SimState
  | .resume p => runProc σ stream p
  | .storePut sid p =>
    -- put event processed: wake head blocked getter (popping an item), then
    -- resume the putter
    let s := getStore σ sid
    let σ1 := match getTrigger s with
      | (s2, some w) =>
        sched (countGet (setStore σ sid s2) sid) σ.now 1 (.resume (.ent w))
      | (_, none) => σ
    runProc σ1 stream p
  | .releaseRes rid =>
    let r := getRes σ rid
    match reqTrigger r with
    | (r2, some w) => sched (logGrant (setRes σ rid r2) rid w) σ.now 1 (.resume (.ent w))
    | (_, none) => σ

/-- One scheduler step: pop the earliest event, advance the clock, process it.
`none` when the event queue is empty (`env.run()` returns). -/
def step (σ : SimState) (stream : ℕ → ℚ) : Option SimState :=
  match findMin σ.events with
  | none => none
  | some ev =>
    some (execAct { σ with now := ev.time, events := σ.events.erase ev } stream ev.act)

/-- Iterate at most `fuel` steps. -/
def stepN (stream : ℕ → ℚ) : Nat → SimState → SimState
  | 0, σ => σ
  | n + 1, σ =>
    match step σ stream with
    | none => σ
    | some σ' => stepN stream n σ'

/-- Initial state of `run_simulation`: fresh environment, the resources of
`__init__`, and the arrival generator registered as an (urgent) initial
event. -/
def initState (cfg : Config) : SimState :=
  { cfg := cfg, now := 0, seq := 1,
    events := [⟨0, 0, 0, .resume .gen⟩], rcount := 0,
    lauk := ⟨3, 0, []⟩, angkut := ⟨2, 0, []⟩, nasi := ⟨2, 0, []⟩,
    staff := List.replicate cfg.NUM_KELOMPOK.toNat ⟨cfg.NUM_STAFF_PER_KELOMPOK, 0, []⟩,
    angkutQ := ⟨[], []⟩, antrianQ := ⟨[], []⟩,
    genCount := 0, ents := [], recs := [], samples := [],
    grants := [], putsAngkut := 0, getsAngkut := 0 }

/-- `run_simulation` run for `fuel` scheduler steps. -/
def runSim (cfg : Config) (stream : ℕ → ℚ) (fuel : Nat) : SimState :=
  stepN stream fuel (initState cfg)

/-- The capacities of the `simpy.Resource`s created by `__init__`
(lines 34-38): `simpy` rejects a non-positive capacity at construction. -/
def initCapacities (cfg : Config) : List Int :=
  [3, 2, 2] ++ List.replicate cfg.NUM_KELOMPOK.toNat cfg.NUM_STAFF_PER_KELOMPOK

/-- Whether constructing `KantinPrasmananDES(config)` raises (the only
validation the constructor performs, via `simpy.Resource`). -/
def initRaises (cfg : Config) : Bool :=
  (initCapacities cfg).any (fun c => c ≤ 0)

/-! ## Basic lemmas about the scheduler primitives -/

theorem findMin_eq_none : ∀ {l : List Event}, findMin l = none → l = [] := by
  intro l h
  cases l with
  | nil => rfl
  | cons e rest =>
    unfold findMin at h
    cases hfm : findMin rest with
    | none => rw [hfm] at h; cases h
    | some m0 => rw [hfm] at h; by_cases hb : evBefore m0 e <;> simp [hb] at h

theorem findMin_mem : ∀ {l : List Event} {m : Event}, findMin l = some m → m ∈ l := by
  intro l
  induction l with
  | nil => intro m h; simp [findMin] at h
  | cons e rest ih =>
    intro m h
    unfold findMin at h
    cases hfm : findMin rest with
    | none => rw [hfm] at h; simp at h; simp [h]
    | some m0 =>
      rw [hfm] at h
      by_cases hb : evBefore m0 e
      · simp [hb] at h; subst h; exact List.mem_cons_of_mem _ (ih hfm)
      · simp [hb] at h; simp [h]

theorem evBefore_time_le {a b : Event} (h : evBefore a b = true) : a.time ≤ b.time := by
  unfold evBefore at h
  simp only [decide_eq_true_eq] at h
  rcases h with h | ⟨h, _⟩
  · exact le_of_lt h
  · exact le_of_eq h

theorem evBefore_time_ge {a b : Event} (h : evBefore a b = false) : b.time ≤ a.time := by
  unfold evBefore at h
  simp only [decide_eq_false_iff_not] at h
  push_neg at h
  exact h.1

theorem findMin_time_le : ∀ {l : List Event} {m : Event}, findMin l = some m →
    ∀ x ∈ l, m.time ≤ x.time := by
  intro l
  induction l with
  | nil => intro m h; simp [findMin] at h
  | cons e rest ih =>
    intro m h x hx
    unfold findMin at h
    cases hfm : findMin rest with
    | none =>
      rw [hfm] at h
      simp at h
      subst h
      have : rest = [] := findMin_eq_none hfm
      subst this
      simp at hx
      simp [hx]
    | some m0 =>
      rw [hfm] at h
      by_cases hb : evBefore m0 e
      · simp [hb] at h
        subst h
        rcases List.mem_cons.mp hx with rfl | hx'
        · exact evBefore_time_le hb
        · exact ih hfm _ hx'
      · simp [hb] at h
        subst h
        rcases List.mem_cons.mp hx with rfl | hx'
        · exact le_refl _
        · exact le_trans (evBefore_time_ge (by simpa using hb)) (ih hfm _ hx')

/-! ## Lemmas about `argminIdx` (the `np.argmin` model) -/

theorem argminIdx_cons_cons (x y : Nat) (ys : List Nat) :
    argminIdx (x :: y :: ys) =
      if x ≤ (y :: ys).getD (argminIdx (y :: ys)) 0 then 0
      else argminIdx (y :: ys) + 1 := rfl

theorem argminIdx_lt : ∀ (l : List Nat), l ≠ [] → argminIdx l < l.length := by
  intro l
  induction l with
  | nil => intro h; exact absurd rfl h
  | cons x xs ih =>
    intro _
    cases xs with
    | nil => simp [argminIdx]
    | cons y ys =>
      rw [argminIdx_cons_cons]
      by_cases hc : x ≤ (y :: ys).getD (argminIdx (y :: ys)) 0
      · rw [if_pos hc]; simp
      · rw [if_neg hc]
        have := ih (by simp)
        simp only [List.length_cons] at this ⊢
        omega

theorem argminIdx_le : ∀ (l : List Nat) (k : Nat), k < l.length →
    l.getD (argminIdx l) 0 ≤ l.getD k 0 := by
  intro l
  induction l with
  | nil => intro k h; simp at h
  | cons x xs ih =>
    intro k hk
    cases xs with
    | nil =>
      have : k = 0 := by simpa using Nat.lt_one_iff.mp (by simpa using hk)
      subst this
      simp [argminIdx]
    | cons y ys =>
      rw [argminIdx_cons_cons]
      by_cases hc : x ≤ (y :: ys).getD (argminIdx (y :: ys)) 0
      · rw [if_pos hc]
        cases k with
        | zero => exact le_refl _
        | succ k' =>
          have hk' : k' < (y :: ys).length := by simpa using hk
          exact le_trans hc (ih k' hk')
      · rw [if_neg hc]
        have hm : (y :: ys).getD (argminIdx (y :: ys)) 0 ≤ x := le_of_lt (lt_of_not_le hc)
        cases k with
        | zero => exact hm
        | succ k' =>
          have hk' : k' < (y :: ys).length := by simpa using hk
          exact ih k' hk'

theorem argminIdx_first : ∀ (l : List Nat) (k : Nat), k < argminIdx l →
    l.getD (argminIdx l) 0 < l.getD k 0 := by
  intro l
  induction l with
  | nil => intro k h; simp [argminIdx] at h
  | cons x xs ih =>
    intro k hk
    cases xs with
    | nil => simp [argminIdx] at hk
    | cons y ys =>
      rw [argminIdx_cons_cons] at hk ⊢
      by_cases hc : x ≤ (y :: ys).getD (argminIdx (y :: ys)) 0
      · rw [if_pos hc] at hk; cases hk
      · rw [if_neg hc] at hk ⊢
        cases k with
        | zero => exact lt_of_not_le hc
        | succ k' =>
          have : k' < argminIdx (y :: ys) := by omega
          exact ih k' this

/-! ## Frame lemmas: which parts of the state each primitive touches -/

theorem requestRes_ents (σ : SimState) (rid : ResId) (i : Nat) :
    (requestRes σ rid i).ents = σ.ents := by
  cases rid <;> (unfold requestRes; dsimp only; split <;> simp [sched, logGrant, setRes])

theorem storeGetCall_ents (σ : SimState) (sid : StoreId) (i : Nat) :
    (storeGetCall σ sid i).ents = σ.ents := by
  cases sid <;> (unfold storeGetCall; dsimp only; split <;> simp [sched, countGet, setStore])

theorem storePutCall_ents (σ : SimState) (sid : StoreId) (x : Nat) (p : Pid) :
    (storePutCall σ sid x p).ents = σ.ents := by
  cases sid <;> simp [storePutCall, sched, setStore, getStore]

theorem releaseCall_ents (σ : SimState) (rid : ResId) :
    (releaseCall σ rid).ents = σ.ents := by
  cases rid <;> simp [releaseCall, sched, setRes]

theorem execEnt_ents (σ : SimState) (stream : ℕ → ℚ) (j : Nat) (ej : Ent) :
    (execEnt σ stream j ej).ents = σ.ents ∨
    ∃ x, (execEnt σ stream j ej).ents = σ.ents.set j x := by
  cases hpc : ej.pc
  case start =>
    right
    simp only [execEnt, hpc, requestRes_ents, setEnt]
    exact ⟨_, rfl⟩
  case afterLaukReq =>
    right
    simp only [execEnt, hpc, sched, setEnt]
    exact ⟨_, rfl⟩
  case afterLaukTimeout =>
    right
    simp only [execEnt, hpc, storePutCall_ents, setEnt, releaseCall_ents]
    exact ⟨_, rfl⟩
  case afterAngkutPut =>
    right
    simp only [execEnt, hpc]
    split <;> simp only [requestRes_ents, setEnt] <;> exact ⟨_, rfl⟩
  case afterAngkutReq =>
    right
    simp only [execEnt, hpc, sched, setEnt]
    exact ⟨_, rfl⟩
  case afterAngkutTimeout =>
    right
    simp only [execEnt, hpc]
    split <;>
      simp only [requestRes_ents, storeGetCall_ents, setEnt, releaseCall_ents] <;>
      exact ⟨_, rfl⟩
  case afterDrainGet =>
    right
    simp only [execEnt, hpc]
    split <;>
      simp only [requestRes_ents, storeGetCall_ents, setEnt, releaseCall_ents] <;>
      exact ⟨_, rfl⟩
  case afterNasiReq =>
    right
    simp only [execEnt, hpc, sched, setEnt]
    exact ⟨_, rfl⟩
  case afterNasiTimeout =>
    right
    simp only [execEnt, hpc, storePutCall_ents, setEnt, releaseCall_ents]
    exact ⟨_, rfl⟩
  case afterAntrianPut =>
    right
    simp only [execEnt, hpc, requestRes_ents, setEnt]
    exact ⟨_, rfl⟩
  case afterStaffReq =>
    right
    simp only [execEnt, hpc, sched, setEnt]
    exact ⟨_, rfl⟩
  case afterStaffTimeout =>
    right
    simp only [execEnt, hpc, storeGetCall_ents, setEnt, releaseCall_ents]
    exact ⟨_, rfl⟩
  case afterAntrianGet =>
    right
    simp only [execEnt, hpc, setEnt]
    exact ⟨_, rfl⟩
  case done =>
    left
    simp only [execEnt, hpc]
theorem get?_some_lt {l : List Ent} {i : Nat} {e : Ent} (h : l.get? i = some e) :
    i < l.length := by
  by_contra hc
  push_neg at hc
  rw [List.get?_eq_none.mpr hc] at h
  cases h

theorem execEnt_get?_other (σ : SimState) (stream : ℕ → ℚ) (j : Nat) (ej : Ent)
    (i : Nat) (hne : j ≠ i) :
    (execEnt σ stream j ej).ents.get? i = σ.ents.get? i := by
  rcases execEnt_ents σ stream j ej with h | ⟨x, h⟩
  · rw [h]
  · rw [h, List.get?_set_ne x σ.ents hne]

/-! ## Claim C4: batch-buffer threshold and clamped drain -/

/-- **C4**: putting an id into the batch buffer initiates a drain if and only
if the buffer length (including the inserted item, as observed when the put
event is processed) is at least the threshold 4; and a drain, when it starts
its removal loop, removes `min 5 (items present)` items — at most 5 and never
more than are present — taking them oldest-first (each removal pops the head
of the buffer).  When the clamp is 0 no removal happens at all. -/
theorem C4_threshold_clamp (σ : SimState) (stream : ℕ → ℚ) (i : Nat) (e : Ent)
    (hget : σ.ents.get? i = some e) :
    (e.pc = .afterAngkutPut →
      ((execEnt σ stream i e).ents.get? i).map Ent.pc =
        some (if 4 ≤ σ.angkutQ.items.length then EPC.afterAngkutReq
              else EPC.afterNasiReq)) ∧
    (e.pc = .afterAngkutTimeout →
      min 5 σ.angkutQ.items.length ≤ 5 ∧
      min 5 σ.angkutQ.items.length ≤ σ.angkutQ.items.length ∧
      (0 < σ.angkutQ.items.length →
        ((execEnt σ stream i e).ents.get? i).map Ent.drainLeft =
          some (min 5 σ.angkutQ.items.length) ∧
        (execEnt σ stream i e).angkutQ.items = σ.angkutQ.items.tail) ∧
      (σ.angkutQ.items.length = 0 →
        ((execEnt σ stream i e).ents.get? i).map Ent.pc = some EPC.afterNasiReq)) := by
  have hlt : i < σ.ents.length := get?_some_lt hget
  constructor
  · intro hpc
    by_cases hlen : 4 ≤ σ.angkutQ.items.length
    · simp only [execEnt, hpc, if_pos hlen, requestRes_ents, setEnt]
      rw [List.get?_set_eq_of_lt _ hlt]
      simp
    · simp only [execEnt, hpc, if_neg hlen, requestRes_ents, setEnt]
      rw [List.get?_set_eq_of_lt _ hlt]
      simp
  · intro hpc
    refine ⟨Nat.min_le_left _ _, Nat.min_le_right _ _, ?_, ?_⟩
    · intro hpos
      have hne : ¬ (min 5 σ.angkutQ.items.length = 0) := by omega
      constructor
      · simp only [execEnt, hpc, if_neg hne, storeGetCall_ents, setEnt]
        rw [List.get?_set_eq_of_lt _ hlt]
        simp
      · simp only [execEnt, hpc, if_neg hne]
        cases hitems : σ.angkutQ.items with
        | nil => rw [hitems] at hpos; simp at hpos
        | cons y ys =>
          unfold storeGetCall
          cases hq : (getStore (setEnt σ i { e with drainLeft := min 5 σ.angkutQ.items.length, pc := EPC.afterDrainGet }) StoreId.angkutQ).getQueue with
          | nil =>
            simp only [setEnt, getStore] at hq ⊢
            simp [getTrigger, hq, hitems, sched, countGet, setStore]
          | cons w ws =>
            simp only [setEnt, getStore] at hq ⊢
            simp [getTrigger, hq, hitems, sched, countGet, setStore]
    · intro hz
      have hmin : min 5 σ.angkutQ.items.length = 0 := by omega
      simp only [execEnt, hpc, if_pos hmin, requestRes_ents, setEnt, releaseCall_ents]
      rw [List.get?_set_eq_of_lt _ hlt]
      simp

/-! ## Claim C8: least-loaded group selection -/

theorem runProc_get?_idx (σ : SimState) (stream : ℕ → ℚ) (p : Pid) (i : Nat) (e : Ent)
    (hget : σ.ents.get? i = some e) (hpc : e.pc = .afterStaffReq) :
    ∃ e', (runProc σ stream p).ents.get? i = some e' ∧ e'.idx = e.idx := by
  cases p with
  | gen =>
    unfold runProc
    by_cases hg : σ.genCount < σ.cfg.NUM_MAHASISWA.toNat
    · simp only [hg, if_true, sched]
      refine ⟨e, ?_, rfl⟩
      rw [List.get?_append (get?_some_lt hget)]
      exact hget
    · simp only [hg, if_false]
      exact ⟨e, hget, rfl⟩
  | ent j =>
    unfold runProc
    cases hj : σ.ents.get? j with
    | none =>
      simp only [hj]
      exact ⟨e, hget, rfl⟩
    | some ej =>
      simp only [hj]
      by_cases hij : j = i
      · subst hij
        rw [hget] at hj
        injection hj with hj
        subst hj
        simp only [execEnt, hpc, sched, setEnt]
        exact ⟨_, List.get?_set_eq_of_lt _ (get?_some_lt hget), rfl⟩
      · rw [execEnt_get?_other σ stream j ej i hij]
        exact ⟨e, hget, rfl⟩

/-- **C8**: at the instant an entity joins the main queue, the load balancer
returns the index of the first staff pool with minimum current occupancy
(minimum over all pools, ties broken by lowest index), stores it as the
entity's chosen group and immediately requests that pool; and the chosen
index is never re-evaluated while the entity waits for the grant (every
scheduler step leaves it unchanged). -/
theorem C8_selection (σ : SimState) (stream : ℕ → ℚ) (i : Nat) (e : Ent)
    (hget : σ.ents.get? i = some e) :
    (e.pc = .afterAntrianPut →
      ((execEnt σ stream i e).ents.get? i).map Ent.idx =
        some (argminIdx (σ.staff.map Resrc.users)) ∧
      ((execEnt σ stream i e).ents.get? i).map Ent.pc = some EPC.afterStaffReq ∧
      (σ.staff ≠ [] → argminIdx (σ.staff.map Resrc.users) < σ.staff.length) ∧
      (∀ k, k < σ.staff.length →
        (σ.staff.map Resrc.users).getD (argminIdx (σ.staff.map Resrc.users)) 0 ≤
          (σ.staff.map Resrc.users).getD k 0) ∧
      (∀ k, k < argminIdx (σ.staff.map Resrc.users) →
        (σ.staff.map Resrc.users).getD (argminIdx (σ.staff.map Resrc.users)) 0 <
          (σ.staff.map Resrc.users).getD k 0)) ∧
    (e.pc = .afterStaffReq → ∀ σ', step σ stream = some σ' →
      ∃ e', σ'.ents.get? i = some e' ∧ e'.idx = e.idx) := by
  have hlt : i < σ.ents.length := get?_some_lt hget
  constructor
  · intro hpc
    refine ⟨?_, ?_, ?_, ?_, ?_⟩
    · simp only [execEnt, hpc, requestRes_ents, setEnt]
      rw [List.get?_set_eq_of_lt _ (by simpa using hlt)]
      simp
    · simp only [execEnt, hpc, requestRes_ents, setEnt]
      rw [List.get?_set_eq_of_lt _ (by simpa using hlt)]
      simp
    · intro hne
      have : σ.staff.map Resrc.users ≠ [] := by simpa using hne
      have := argminIdx_lt _ this
      simpa using this
    · intro k hk
      exact argminIdx_le _ k (by simpa using hk)
    · intro k hk
      exact argminIdx_first _ k hk
  · intro hpc σ' hstep
    unfold step at hstep
    cases hfm : findMin σ.events with
    | none => rw [hfm] at hstep; cases hstep
    | some ev =>
      rw [hfm] at hstep
      injection hstep with hstep
      subst hstep
      set σ0 : SimState := { σ with now := ev.time, events := σ.events.erase ev } with hσ0
      have hget0 : σ0.ents.get? i = some e := hget
      cases ev.act with
      | resume p => exact runProc_get?_idx σ0 stream p i e hget0 hpc
      | storePut sid p =>
        simp only [execAct]
        split
        · next s2 w heq =>
          apply runProc_get?_idx _ stream p i e _ hpc
          cases sid <;> exact hget0
        · next heq => exact runProc_get?_idx _ stream p i e hget0 hpc
      | releaseRes rid =>
        simp only [execAct]
        split
        · next r2 w heq =>
          refine ⟨e, ?_, rfl⟩
          cases rid <;> exact hget0
        · next heq => exact ⟨e, hget0, rfl⟩

/-! ## Claim C6: drain removals and the batch buffer -/

theorem requestRes_angkutQ (σ : SimState) (rid : ResId) (i : Nat) :
    (requestRes σ rid i).angkutQ = σ.angkutQ := by
  cases rid <;> (unfold requestRes; dsimp only; split <;> simp [sched, logGrant, setRes])

theorem releaseCall_angkutQ (σ : SimState) (rid : ResId) :
    (releaseCall σ rid).angkutQ = σ.angkutQ := by
  cases rid <;> simp [releaseCall, sched, setRes]

theorem storePutCall_angkutQ_items (σ : SimState) (x : Nat) (p : Pid) :
    (storePutCall σ .angkutQ x p).angkutQ.items = σ.angkutQ.items ++ [x] := by
  simp [storePutCall, sched, setStore, getStore]

theorem storePutCall_antrianQ_angkutQ (σ : SimState) (x : Nat) (p : Pid) :
    (storePutCall σ .antrianQ x p).angkutQ = σ.angkutQ := by
  simp [storePutCall, sched, setStore, getStore]

theorem storeGetCall_antrianQ_angkutQ (σ : SimState) (i : Nat) :
    (storeGetCall σ .antrianQ i).angkutQ = σ.angkutQ := by
  unfold storeGetCall
  dsimp only
  split <;> simp [sched, countGet, setStore, getStore]

theorem storeGetCall_angkutQ_items (σ : SimState) (i : Nat) :
    (σ.angkutQ.items ≠ [] ∧
      (storeGetCall σ .angkutQ i).angkutQ.items = σ.angkutQ.items.tail) ∨
    (storeGetCall σ .angkutQ i).angkutQ.items = σ.angkutQ.items := by
  unfold storeGetCall
  dsimp only
  cases hitems : σ.angkutQ.items with
  | nil =>
    right
    cases hq : σ.angkutQ.getQueue with
    | nil => simp [getTrigger, getStore, hq, hitems, setStore]
    | cons w ws => simp [getTrigger, getStore, hq, hitems, setStore]
  | cons y ys =>
    left
    refine ⟨by simp, ?_⟩
    cases hq : σ.angkutQ.getQueue with
    | nil => simp [getTrigger, getStore, hq, hitems, sched, countGet, setStore]
    | cons w ws => simp [getTrigger, getStore, hq, hitems, sched, countGet, setStore]

/-- The one-step evolutions of the batch-buffer item list: drop some of the
oldest items (never more than are present) and append at most one. -/
def BufStep (l l' : List Nat) : Prop :=
  ∃ k app, l' = l.drop k ++ app ∧ k ≤ l.length ∧ app.length ≤ 1

theorem BufStep_refl (l : List Nat) : BufStep l l := ⟨0, [], by simp, by simp, by simp⟩

theorem BufStep_of_eq {l l' : List Nat} (h : l' = l) : BufStep l l' :=
  h ▸ BufStep_refl l

theorem BufStep_append (l : List Nat) (x : Nat) : BufStep l (l ++ [x]) :=
  ⟨0, [x], by simp, by simp, by simp⟩

theorem BufStep_tail {l : List Nat} (h : l ≠ []) : BufStep l l.tail := by
  refine ⟨1, [], by simp, ?_, by simp⟩
  cases l with
  | nil => exact absurd rfl h
  | cons y ys => simp

theorem runProc_angkut (σ : SimState) (stream : ℕ → ℚ) (p : Pid) :
    BufStep σ.angkutQ.items (runProc σ stream p).angkutQ.items := by
  cases p with
  | gen =>
    unfold runProc
    dsimp only
    by_cases hg : σ.genCount < σ.cfg.NUM_MAHASISWA.toNat
    · simp only [hg, if_true, sched]
      exact BufStep_refl _
    · simp only [hg, if_false]
      exact BufStep_refl _
  | ent j =>
    unfold runProc
    dsimp only
    cases hj : σ.ents.get? j with
    | none => simp only [hj]; exact BufStep_refl _
    | some ej =>
      simp only [hj]
      cases hpc : ej.pc
      case start =>
        simp only [execEnt, hpc]
        exact BufStep_of_eq (by simp only [requestRes_angkutQ, setEnt])
      case afterLaukReq =>
        simp only [execEnt, hpc, sched, setEnt]
        exact BufStep_refl _
      case afterLaukTimeout =>
        simp only [execEnt, hpc]
        have heq : (storePutCall (setEnt (releaseCall σ .lauk) j { ej with pc := EPC.afterAngkutPut }) .angkutQ j (.ent j)).angkutQ.items = σ.angkutQ.items ++ [j] := by
          rw [storePutCall_angkutQ_items]
          simp only [setEnt]
          rw [releaseCall_angkutQ]
        rw [heq]
        exact BufStep_append _ j
      case afterAngkutPut =>
        simp only [execEnt, hpc]
        split <;> exact BufStep_of_eq (by simp only [requestRes_angkutQ, setEnt])
      case afterAngkutReq =>
        simp only [execEnt, hpc, sched, setEnt]
        exact BufStep_refl _
      case afterAngkutTimeout =>
        simp only [execEnt, hpc]
        split
        · exact BufStep_of_eq (by simp only [requestRes_angkutQ, setEnt, releaseCall_angkutQ])
        · rcases storeGetCall_angkutQ_items (setEnt σ j { ej with drainLeft := min 5 σ.angkutQ.items.length, pc := EPC.afterDrainGet }) j with ⟨hne, heq⟩ | heq
          · rw [heq]; exact BufStep_tail hne
          · exact BufStep_of_eq heq
      case afterDrainGet =>
        simp only [execEnt, hpc]
        split
        · exact BufStep_of_eq (by simp only [requestRes_angkutQ, setEnt, releaseCall_angkutQ])
        · rcases storeGetCall_angkutQ_items (setEnt σ j ⟨EPC.afterDrainGet, ej.datang, ej.mulai, ej.svc, ej.idx, ej.drainLeft - 1⟩) j with ⟨hne, heq⟩ | heq
          · rw [heq]; exact BufStep_tail hne
          · exact BufStep_of_eq heq
      case afterNasiReq =>
        simp only [execEnt, hpc, sched, setEnt]
        exact BufStep_refl _
      case afterNasiTimeout =>
        simp only [execEnt, hpc]
        exact BufStep_of_eq (by simp only [storePutCall_antrianQ_angkutQ, setEnt, releaseCall_angkutQ])
      case afterAntrianPut =>
        simp only [execEnt, hpc]
        exact BufStep_of_eq (by simp only [requestRes_angkutQ, setEnt])
      case afterStaffReq =>
        simp only [execEnt, hpc, sched, setEnt]
        exact BufStep_refl _
      case afterStaffTimeout =>
        simp only [execEnt, hpc]
        exact BufStep_of_eq (by simp only [storeGetCall_antrianQ_angkutQ, setEnt, releaseCall_angkutQ])
      case afterAntrianGet =>
        simp only [execEnt, hpc, setEnt]
        exact BufStep_refl _
      case done =>
        simp only [execEnt, hpc]
        exact BufStep_refl _

theorem BufStep_comp_drop {l l1 l2 : List Nat} (k1 : Nat) (h1 : l1 = l.drop k1)
    (hk1 : k1 ≤ l.length) (h2 : BufStep l1 l2) : BufStep l l2 := by
  rcases h2 with ⟨k, app, heq, hk, happ⟩
  refine ⟨k + k1, app, ?_, ?_, happ⟩
  · rw [heq, h1, List.drop_drop, Nat.add_comm k1 k]
  · rw [h1, List.length_drop] at hk
    omega

theorem getTrigger_pop {st s2 : Store} {w : Nat} (h : getTrigger st = (s2, some w)) :
    st.items ≠ [] ∧ s2.items = st.items.tail := by
  unfold getTrigger at h
  cases hq : st.getQueue with
  | nil => rw [hq] at h; injection h with h1 h2; cases h2
  | cons a as =>
    cases hi : st.items with
    | nil => rw [hq, hi] at h; injection h with h1 h2; cases h2
    | cons y ys =>
      rw [hq, hi] at h
      injection h with h1 h2
      subst h1
      simp [hi]

theorem getTrigger_none {st s2 : Store} (h : getTrigger st = (s2, none)) : s2 = st := by
  unfold getTrigger at h
  cases hq : st.getQueue with
  | nil => rw [hq] at h; injection h with h1 h2; exact h1.symm
  | cons a as =>
    cases hi : st.items with
    | nil => rw [hq, hi] at h; injection h with h1 h2; exact h1.symm
    | cons y ys => rw [hq, hi] at h; injection h with h1 h2; cases h2

theorem execAct_angkut (σ : SimState) (stream : ℕ → ℚ) (a : Act) :
    BufStep σ.angkutQ.items (execAct σ stream a).angkutQ.items := by
  cases a with
  | resume p => exact runProc_angkut σ stream p
  | storePut sid p =>
    simp only [execAct]
    cases sid with
    | antrianQ =>
      split
      · next s2 w heq =>
        have h1 : (sched (countGet (setStore σ .antrianQ s2) .antrianQ) σ.now 1
            (.resume (.ent w))).angkutQ.items = σ.angkutQ.items := by
          simp [sched, countGet, setStore]
        exact h1 ▸ runProc_angkut _ stream p
      · next heq => exact runProc_angkut _ stream p
    | angkutQ =>
      split
      · next s2 w heq =>
        rcases getTrigger_pop heq with ⟨hne, htail⟩
        have h1 : (sched (countGet (setStore σ .angkutQ s2) .angkutQ) σ.now 1
            (.resume (.ent w))).angkutQ.items = σ.angkutQ.items.drop 1 := by
          simp only [sched, countGet, setStore]
          rw [htail]
          · simp [getStore, List.drop_one]
        refine BufStep_comp_drop 1 h1 ?_ (runProc_angkut _ stream p)
        cases hi : σ.angkutQ.items with
        | nil => exact absurd hi (by simpa [getStore] using hne)
        | cons y ys => simp
      · next heq => exact runProc_angkut _ stream p
  | releaseRes rid =>
    simp only [execAct]
    split
    · next r2 w heq =>
      have h1 : (sched (logGrant (setRes σ rid r2) rid w) σ.now 1
          (.resume (.ent w))).angkutQ.items = σ.angkutQ.items := by
        cases rid <;> simp [sched, logGrant, setRes]
      exact BufStep_of_eq h1
    · next heq => exact BufStep_refl _

/-- **C6 (amended)**: across any scheduler step, the batch buffer evolves by
removing some of its oldest items — never more than are present, so a
removal never takes an item from an empty buffer — and appending at most one
new item.  (The "never blocks" half of the original claim is false: an
over-issued removal blocks as a pending getter, see the counterexample.) -/
theorem C6_amended (σ σ' : SimState) (stream : ℕ → ℚ)
    (h : step σ stream = some σ') :
    ∃ k app, σ'.angkutQ.items = σ.angkutQ.items.drop k ++ app ∧
      k ≤ σ.angkutQ.items.length ∧ app.length ≤ 1 := by
  unfold step at h
  cases hfm : findMin σ.events with
  | none => rw [hfm] at h; cases h
  | some ev =>
    rw [hfm] at h
    injection h with h
    subst h
    exact execAct_angkut { σ with now := ev.time, events := σ.events.erase ev } stream ev.act

/-! ## Concrete runs

Three small fully-evaluated runs used as counterexamples and witnesses.
All random draws are taken at the bottom of their ranges (`zstream`): every
`uniform(a, b)` call yields `a` and every interarrival is `0`, which are
values the real generator can produce (up to float rounding); the runs below
are genuine behaviours of the program. -/

set_option allowUnsafeReducibility true

attribute [local semireducible] Rat.add Rat.mul Rat.inv Rat.sub Rat.ofScientific

/-- The all-zero raw draw stream. -/
def zstream : ℕ → ℚ := fun _ => 0

/-- One student, one group, one staff member, degenerate service time 1. -/
def cfgOne : Config :=
  { NUM_MAHASISWA := 1, NUM_KELOMPOK := 1, NUM_STAFF_PER_KELOMPOK := 1,
    MIN_SERVICE_TIME := 1, MAX_SERVICE_TIME := 1, MEAN_INTERARRIVAL := 1 }

def runOne : SimState := runSim cfgOne zstream 40

/-- Two students contending for a single staff member (service time 2). -/
def cfgTwo : Config :=
  { NUM_MAHASISWA := 2, NUM_KELOMPOK := 1, NUM_STAFF_PER_KELOMPOK := 1,
    MIN_SERVICE_TIME := 2, MAX_SERVICE_TIME := 2, MEAN_INTERARRIVAL := 1 }

def runTwo : SimState := runSim cfgTwo zstream 80

/-- Six students arriving together: entities 3 and 4 trigger drains at the
same instant and their interleaved removals exhaust the buffer. -/
def cfgSix : Config :=
  { NUM_MAHASISWA := 6, NUM_KELOMPOK := 1, NUM_STAFF_PER_KELOMPOK := 1,
    MIN_SERVICE_TIME := 1, MAX_SERVICE_TIME := 1, MEAN_INTERARRIVAL := 1 }

def runSix : SimState := runSim cfgSix zstream 200

/-- Population zero (an invalid configuration in the sense of the spec). -/
def cfgZero : Config := { NUM_MAHASISWA := 0 }

def runZero : SimState := runSim cfgZero zstream 5


/-! ## Counterexamples and the directly settled claims -/

/-- **C1 (counterexample)**: in the population-1 run the single entity joins
the main queue at time 1 (its queue-length sample) and is granted its staff
pool immediately, also at time 1 (the grant log); so service-start minus
queue-join is `1 - 1 = 0`, but the record's computed wait field `tunggu`
is `1` (it is `mulai - datang`, time in the pre-service stages).  The claim
"wait = service-start − queue-join" is false on this run. -/
theorem C1_counterexample :
    runOne.events = [] ∧
    runOne.recs = [⟨0, 0, 1, 2, 1, 1, 1⟩] ∧
    runOne.samples = [⟨1, 1⟩] ∧
    runOne.grants = [(0, 1, 0)] ∧
    ¬ ((1 : ℚ) = 1 - 1) := by
  refine ⟨by decide, by decide, by decide, by decide, by decide⟩

/-- **C2 (counterexample)**: in the population-2 run with one staff member,
entity 1 joins the queue at time 1 (`mulai = 1`), is served for
`layanan = 2`, but completes at `selesai = 5` because it first waits two
time units for the staff grant; thus `layanan ≠ selesai - mulai`
(`2 ≠ 5 - 1`) and the claim's third conjunct is false on this run. -/
theorem C2_counterexample :
    runTwo.events = [] ∧
    runTwo.recs = [⟨0, 0, 1, 3, 1, 2, 1⟩, ⟨1, 0, 1, 5, 1, 2, 1⟩] ∧
    ¬ ((2 : ℚ) = 5 - 1) := by
  refine ⟨by decide, by decide, by decide⟩

/-- **C3 (counterexample)**: the configuration with population 0 is invalid
in the claim's sense (non-positive population), yet constructing the model
raises nothing (`initRaises = false`; the constructor performs no validation
beyond `simpy`'s capacity check) and the run executes to completion —
scheduling does begin and ends normally — producing no records and no
error. -/
theorem C3_counterexample :
    cfgZero.NUM_MAHASISWA ≤ 0 ∧ initRaises cfgZero = false ∧
    runZero.events = [] ∧ runZero.recs = [] := by
  refine ⟨by decide, by decide, by decide, by decide⟩

/-- **C3 (amended)**: the constructor rejects a `Config` if and only if it
has at least one group and a non-positive per-group staff capacity (the
`simpy.Resource` capacity check); non-positive population, inverted service
bounds and non-positive interarrival mean are not rejected before
scheduling. -/
theorem C3_amended (cfg : Config) :
    initRaises cfg = true ↔
      0 < cfg.NUM_KELOMPOK ∧ cfg.NUM_STAFF_PER_KELOMPOK ≤ 0 := by
  simp only [initRaises, initCapacities, List.any_eq_true, List.mem_append,
    List.mem_replicate, decide_eq_true_eq]
  constructor
  · rintro ⟨c, hc | ⟨hn, rfl⟩, hle⟩
    · simp only [List.mem_cons, List.mem_singleton] at hc
      rcases hc with rfl | rfl | rfl | hc
      · omega
      · omega
      · omega
      · simp at hc
    · exact ⟨by omega, hle⟩
  · rintro ⟨hK, hle⟩
    exact ⟨cfg.NUM_STAFF_PER_KELOMPOK, Or.inr ⟨by omega, rfl⟩, hle⟩

/-- Witness for C3 (amended): a two-group, zero-staff configuration is
rejected at construction. -/
theorem C3_witness :
    initRaises { NUM_STAFF_PER_KELOMPOK := 0 } = true :=
  (C3_amended { NUM_STAFF_PER_KELOMPOK := 0 }).mpr ⟨by decide, by decide⟩

/-- **C5 (counterexample)**: in the population-1 run one id is inserted into
the batch buffer, the buffer never reaches the threshold, and at termination
(`events = []`, i.e. `run()` has returned) the inserted id is still in the
buffer: not every inserted id is removed by a drain. -/
theorem C5_counterexample :
    runOne.events = [] ∧ runOne.putsAngkut = 1 ∧ runOne.getsAngkut = 0 ∧
    runOne.angkutQ.items = [0] := by
  refine ⟨by decide, by decide, by decide, by decide⟩

/-- **C6 (counterexample)**: in the population-6 run entities 3 and 4 both
trigger drains whose transport timeouts end at the same instant; their
interleaved removals exhaust the buffer (6 items for 10 intended removals)
and at termination both are still blocked inside their drain loops — each
has a pending `get` on the empty buffer.  A drain's removal can therefore
block, contradicting "never blocks". -/
theorem C6_counterexample :
    runSix.events = [] ∧ runSix.angkutQ.items = [] ∧
    runSix.angkutQ.getQueue = [3, 4] ∧
    (runSix.ents.get? 3).map Ent.pc = some EPC.afterDrainGet ∧
    (runSix.ents.get? 4).map Ent.pc = some EPC.afterDrainGet := by
  refine ⟨by decide, by decide, by decide, by decide, by decide⟩

/-- **C7 (counterexample)**: in the population-6 run only three entities
depart: entities 3 and 4 block forever inside their drain loops and entity 5
waits forever for the transport pool they hold, so after `run()` returns
(`events = []`) the number of records is 3, not `NUM_MAHASISWA = 6`. -/
theorem C7_counterexample :
    cfgSix.NUM_MAHASISWA = 6 ∧ runSix.events = [] ∧
    runSix.recs.length = 3 ∧ runSix.recs.length ≠ 6 := by
  refine ⟨by decide, by decide, by decide, by decide⟩

/-- **C9**: the run is a pure function of the `Config` (the random stream is
itself a deterministic function of the seed, modelled by quantifying over an
arbitrary deterministic seed-to-stream map): two runs with equal `Config`
values produce equal states — in particular identical `EntityRecord`
sequences (`recs`) and identical queue-length sample sequences
(`samples`). -/
theorem C9_determinism (prng : Int → ℕ → ℚ) (c1 c2 : Config) (fuel : ℕ)
    (h : c1 = c2) :
    runSim c1 (prng c1.RANDOM_SEED) fuel = runSim c2 (prng c2.RANDOM_SEED) fuel := by
  rw [h]

/-- Witness for C9: two identically configured population-1 runs coincide. -/
theorem C9_witness :
    runSim cfgOne ((fun _ => zstream) cfgOne.RANDOM_SEED) 40 =
      runSim cfgOne ((fun _ => zstream) cfgOne.RANDOM_SEED) 40 :=
  C9_determinism (fun _ => zstream) cfgOne cfgOne 40 rfl

/-- A handcrafted state for the C4 witness: entity 0 has just had its
batch-buffer put processed and the buffer holds 4 items. -/
def entC4 : Ent := ⟨.afterAngkutPut, 0, 0, 0, 0, 0⟩

def stC4 : SimState :=
  { initState cfgSix with ents := [entC4], angkutQ := ⟨[7, 8, 9, 0], []⟩ }

/-- Witness for C4: with 4 items present the put initiates a drain. -/
theorem C4_witness :
    ((execEnt stC4 zstream 0 entC4).ents.get? 0).map Ent.pc =
      some (if 4 ≤ stC4.angkutQ.items.length then EPC.afterAngkutReq
            else EPC.afterNasiReq) :=
  (C4_threshold_clamp stC4 zstream 0 entC4 (by decide)).1 rfl

/-- A handcrafted state for the C8 witness: entity 0 is at its main-queue
join, group 0 has one occupied slot and group 1 none. -/
def entC8 : Ent := ⟨.afterAntrianPut, 0, 0, 0, 0, 0⟩

def stC8 : SimState :=
  { initState cfgSix with ents := [entC8], staff := [⟨2, 1, []⟩, ⟨2, 0, []⟩] }

/-- Witness for C8: the selection picks group 1 (occupancy 0 < 1), stores it
and moves to the staff request. -/
theorem C8_witness :
    ((execEnt stC8 zstream 0 entC8).ents.get? 0).map Ent.idx =
      some (argminIdx (stC8.staff.map Resrc.users)) ∧
    ((execEnt stC8 zstream 0 entC8).ents.get? 0).map Ent.pc =
      some EPC.afterStaffReq ∧
    (stC8.staff ≠ [] → argminIdx (stC8.staff.map Resrc.users) < stC8.staff.length) ∧
    (∀ k, k < stC8.staff.length →
      (stC8.staff.map Resrc.users).getD (argminIdx (stC8.staff.map Resrc.users)) 0 ≤
        (stC8.staff.map Resrc.users).getD k 0) ∧
    (∀ k, k < argminIdx (stC8.staff.map Resrc.users) →
      (stC8.staff.map Resrc.users).getD (argminIdx (stC8.staff.map Resrc.users)) 0 <
        (stC8.staff.map Resrc.users).getD k 0) :=
  (C8_selection stC8 zstream 0 entC8 (by decide)).1 rfl

/-- Witness for C6 (amended): the first scheduler step of the population-1
run leaves the (empty) batch buffer in the allowed evolution relation. -/
theorem C6_witness :
    ∃ σ', step (initState cfgOne) zstream = some σ' ∧
      ∃ k app, σ'.angkutQ.items = (initState cfgOne).angkutQ.items.drop k ++ app ∧
        k ≤ (initState cfgOne).angkutQ.items.length ∧ app.length ≤ 1 := by
  cases hs : step (initState cfgOne) zstream with
  | none => exact absurd hs (by decide)
  | some σ' => exact ⟨σ', rfl, C6_amended _ σ' zstream hs⟩

/-! ## The structural run invariant

`InvA` collects the structural facts that hold in every reachable state:
the configuration and group count are constant, entity ids coincide with
spawn order and never exceed the population, chosen group indices are in
range once selected, records are well-formed (wait = `mulai - datang`,
one record per departed entity, recorded group = chosen index + 1), and the
batch-buffer counters satisfy conservation. -/

/-- Program counters from the main-queue join onwards (after `kelompok_idx`
and `waktu_mulai` have been assigned). -/
def AfterJoin (pc : EPC) : Prop :=
  pc = .afterStaffReq ∨ pc = .afterStaffTimeout ∨ pc = .afterAntrianGet ∨ pc = .done

structure InvA (cfg : Config) (σ : SimState) : Prop where
  cfgEq : σ.cfg = cfg
  staffLen : σ.staff.length = cfg.NUM_KELOMPOK.toNat
  genEq : σ.genCount = σ.ents.length
  entsLen : σ.ents.length ≤ cfg.NUM_MAHASISWA.toNat
  idxSet : ∀ i e, σ.ents.get? i = some e → AfterJoin e.pc → σ.staff ≠ [] →
    e.idx < σ.staff.length
  recsT : ∀ r ∈ σ.recs, r.tunggu = r.mulai - r.datang
  recsDone : ∀ r ∈ σ.recs, ∃ e, σ.ents.get? r.id = some e ∧ e.pc = .done ∧
    r.kelompok = e.idx + 1 ∧ (σ.staff ≠ [] → e.idx < σ.staff.length)
  recsNodup : (σ.recs.map MhsRecord.id).Nodup
  cons : σ.putsAngkut = σ.getsAngkut + σ.angkutQ.items.length

theorem requestRes_light (σ : SimState) (rid : ResId) (i : Nat) :
    (requestRes σ rid i).cfg = σ.cfg ∧ (requestRes σ rid i).recs = σ.recs ∧
    (requestRes σ rid i).genCount = σ.genCount ∧
    (requestRes σ rid i).staff.length = σ.staff.length ∧
    (requestRes σ rid i).angkutQ = σ.angkutQ ∧
    (requestRes σ rid i).putsAngkut = σ.putsAngkut ∧
    (requestRes σ rid i).getsAngkut = σ.getsAngkut := by
  cases rid <;> (unfold requestRes; dsimp only; split <;> simp [sched, logGrant, setRes])

theorem releaseCall_light (σ : SimState) (rid : ResId) :
    (releaseCall σ rid).cfg = σ.cfg ∧ (releaseCall σ rid).recs = σ.recs ∧
    (releaseCall σ rid).genCount = σ.genCount ∧
    (releaseCall σ rid).staff.length = σ.staff.length ∧
    (releaseCall σ rid).angkutQ = σ.angkutQ ∧
    (releaseCall σ rid).putsAngkut = σ.putsAngkut ∧
    (releaseCall σ rid).getsAngkut = σ.getsAngkut := by
  cases rid <;> simp [releaseCall, sched, setRes]

theorem sched_light (σ : SimState) (t : ℚ) (pr : Nat) (a : Act) :
    (sched σ t pr a).cfg = σ.cfg ∧ (sched σ t pr a).recs = σ.recs ∧
    (sched σ t pr a).genCount = σ.genCount ∧
    (sched σ t pr a).staff.length = σ.staff.length ∧
    (sched σ t pr a).angkutQ = σ.angkutQ ∧
    (sched σ t pr a).putsAngkut = σ.putsAngkut ∧
    (sched σ t pr a).getsAngkut = σ.getsAngkut ∧
    (sched σ t pr a).ents = σ.ents := by
  simp [sched]

theorem storePutCall_light (σ : SimState) (sid : StoreId) (x : Nat) (p : Pid) :
    (storePutCall σ sid x p).cfg = σ.cfg ∧ (storePutCall σ sid x p).recs = σ.recs ∧
    (storePutCall σ sid x p).genCount = σ.genCount ∧
    (storePutCall σ sid x p).staff.length = σ.staff.length ∧
    (storePutCall σ sid x p).putsAngkut =
      (storePutCall σ sid x p).getsAngkut +
        (storePutCall σ sid x p).angkutQ.items.length -
        (σ.getsAngkut + σ.angkutQ.items.length) + σ.putsAngkut := by
  cases sid <;> simp [storePutCall, sched, setStore, getStore] <;> omega

theorem storeGetCall_light (σ : SimState) (sid : StoreId) (i : Nat) :
    (storeGetCall σ sid i).cfg = σ.cfg ∧ (storeGetCall σ sid i).recs = σ.recs ∧
    (storeGetCall σ sid i).genCount = σ.genCount ∧
    (storeGetCall σ sid i).staff.length = σ.staff.length ∧
    (storeGetCall σ sid i).putsAngkut = σ.putsAngkut ∧
    ((storeGetCall σ sid i).getsAngkut + (storeGetCall σ sid i).angkutQ.items.length
      = σ.getsAngkut + σ.angkutQ.items.length) := by
  cases sid with
  | angkutQ =>
    unfold storeGetCall
    dsimp only
    split
    · next s2 w heq =>
      rcases getTrigger_pop heq with ⟨hne, htail⟩
      simp only [getStore] at hne htail
      refine ⟨by simp [sched, countGet, setStore], by simp [sched, countGet, setStore],
        by simp [sched, countGet, setStore], by simp [sched, countGet, setStore],
        by simp [sched, countGet, setStore], ?_⟩
      have h1 : (sched (countGet (setStore σ .angkutQ s2) .angkutQ) σ.now 1
          (.resume (.ent w))).getsAngkut = σ.getsAngkut + 1 := by
        simp [sched, countGet, setStore]
      have h2 : (sched (countGet (setStore σ .angkutQ s2) .angkutQ) σ.now 1
          (.resume (.ent w))).angkutQ.items = s2.items := by
        simp [sched, countGet, setStore]
      rw [h1, h2, htail]
      cases hi : σ.angkutQ.items with
      | nil => exact absurd hi hne
      | cons y ys => simp; omega
    · next s2 heq =>
      have := getTrigger_none heq
      subst this
      simp [setStore, getStore]
  | antrianQ =>
    unfold storeGetCall
    dsimp only
    split
    · next s2 w heq => simp [sched, countGet, setStore]
    · next s2 heq =>
      have := getTrigger_none heq
      subst this
      simp [setStore, getStore]

/-- Updating one non-departed entity (and possibly anything except the
record list, the entity list shape, the group list length and the counters)
preserves `InvA`. -/
theorem InvA_update {cfg : Config} {σ σ' : SimState} (h : InvA cfg σ)
    (j : Nat) (e e' : Ent)
    (hget : σ.ents.get? j = some e) (hpcne : e.pc ≠ .done)
    (hcfg : σ'.cfg = σ.cfg) (hstaff : σ'.staff.length = σ.staff.length)
    (hgen : σ'.genCount = σ.genCount) (hents : σ'.ents = σ.ents.set j e')
    (hrecs : σ'.recs = σ.recs)
    (hcons : σ'.putsAngkut = σ'.getsAngkut + σ'.angkutQ.items.length)
    (hidx : AfterJoin e'.pc → σ'.staff ≠ [] → e'.idx < σ'.staff.length) :
    InvA cfg σ' := by
  have hnil : σ'.staff ≠ [] ↔ σ.staff ≠ [] :=
    not_congr (by rw [← List.length_eq_zero, ← List.length_eq_zero, hstaff])
  refine ⟨hcfg.trans h.cfgEq, hstaff.trans h.staffLen, ?_, ?_, ?_, ?_, ?_, ?_, ?_⟩
  · rw [hgen, hents, List.length_set]
    exact h.genEq
  · rw [hents, List.length_set]
    exact h.entsLen
  · intro i ei hgi haj hne
    rw [hents] at hgi
    by_cases hij : i = j
    · subst hij
      rw [List.get?_set_eq_of_lt _ (get?_some_lt hget)] at hgi
      injection hgi with hgi
      subst hgi
      exact hidx haj hne
    · rw [List.get?_set_ne _ _ (fun hh => hij hh.symm)] at hgi
      rw [hstaff]
      exact h.idxSet i ei hgi haj (hnil.mp hne)
  · rw [hrecs]; exact h.recsT
  · intro r hr
    rw [hrecs] at hr
    rcases h.recsDone r hr with ⟨er, hgr, hdone, hkel, hlt⟩
    have hne : r.id ≠ j := by
      intro hh
      rw [hh, hget] at hgr
      injection hgr with hgr
      rw [← hgr] at hdone
      exact hpcne hdone
    refine ⟨er, ?_, hdone, hkel, ?_⟩
    · rw [hents, List.get?_set_ne _ _ (fun hh => hne hh.symm)]
      exact hgr
    · intro hs
      rw [hstaff]
      exact hlt (hnil.mp hs)
  · rw [hrecs]; exact h.recsNodup
  · exact hcons

/-- The state components relevant to `InvA` that a primitive leaves intact
(the batch-buffer counters may shift together, preserving conservation). -/
def LightFrame (σ σ' : SimState) : Prop :=
  σ'.cfg = σ.cfg ∧ σ'.recs = σ.recs ∧ σ'.genCount = σ.genCount ∧
  σ'.staff.length = σ.staff.length ∧ σ'.ents = σ.ents ∧
  σ'.putsAngkut + (σ.getsAngkut + σ.angkutQ.items.length) =
    σ.putsAngkut + (σ'.getsAngkut + σ'.angkutQ.items.length)

theorem LightFrame_refl (σ : SimState) : LightFrame σ σ :=
  ⟨rfl, rfl, rfl, rfl, rfl, rfl⟩

theorem LightFrame_trans {σ1 σ2 σ3 : SimState} (h1 : LightFrame σ1 σ2)
    (h2 : LightFrame σ2 σ3) : LightFrame σ1 σ3 := by
  obtain ⟨a1, b1, c1, d1, e1, f1⟩ := h1
  obtain ⟨a2, b2, c2, d2, e2, f2⟩ := h2
  exact ⟨a2.trans a1, b2.trans b1, c2.trans c1, d2.trans d1, e2.trans e1, by omega⟩

theorem LightFrame_requestRes (σ : SimState) (rid : ResId) (i : Nat) :
    LightFrame σ (requestRes σ rid i) := by
  obtain ⟨a, b, c, d, e, f, g⟩ := requestRes_light σ rid i
  exact ⟨a, b, c, d, requestRes_ents σ rid i, by rw [e, f, g]⟩

theorem LightFrame_releaseCall (σ : SimState) (rid : ResId) :
    LightFrame σ (releaseCall σ rid) := by
  obtain ⟨a, b, c, d, e, f, g⟩ := releaseCall_light σ rid
  exact ⟨a, b, c, d, releaseCall_ents σ rid, by rw [e, f, g]⟩

theorem LightFrame_sched (σ : SimState) (t : ℚ) (pr : Nat) (a : Act) :
    LightFrame σ (sched σ t pr a) := by
  obtain ⟨a1, b, c, d, e, f, g, hents⟩ := sched_light σ t pr a
  exact ⟨a1, b, c, d, hents, by rw [e, f, g]⟩

theorem LightFrame_storePutCall (σ : SimState) (sid : StoreId) (x : Nat) (p : Pid) :
    LightFrame σ (storePutCall σ sid x p) := by
  refine ⟨?_, ?_, ?_, ?_, storePutCall_ents σ sid x p, ?_⟩ <;>
    cases sid <;> simp [storePutCall, sched, setStore, getStore] <;> omega

theorem LightFrame_storeGetCall (σ : SimState) (sid : StoreId) (i : Nat) :
    LightFrame σ (storeGetCall σ sid i) := by
  obtain ⟨a, b, c, d, e, f⟩ := storeGetCall_light σ sid i
  exact ⟨a, b, c, d, storeGetCall_ents σ sid i, by omega⟩

theorem InvA_of_lightFrame {cfg : Config} {σ σ' : SimState} (h : InvA cfg σ)
    (hlf : LightFrame σ σ') : InvA cfg σ' := by
  obtain ⟨hcfg, hrecs, hgen, hstaff, hents, hcons⟩ := hlf
  have hnil : σ'.staff ≠ [] ↔ σ.staff ≠ [] :=
    not_congr (by rw [← List.length_eq_zero, ← List.length_eq_zero, hstaff])
  refine ⟨hcfg.trans h.cfgEq, hstaff.trans h.staffLen, ?_, ?_, ?_, ?_, ?_, ?_, ?_⟩
  · rw [hgen, hents]; exact h.genEq
  · rw [hents]; exact h.entsLen
  · intro i ei hgi haj hne
    rw [hents] at hgi
    rw [hstaff]
    exact h.idxSet i ei hgi haj (hnil.mp hne)
  · rw [hrecs]; exact h.recsT
  · intro r hr
    rw [hrecs] at hr
    rcases h.recsDone r hr with ⟨er, hgr, hdone, hkel, hlt⟩
    refine ⟨er, by rw [hents]; exact hgr, hdone, hkel, ?_⟩
    intro hs
    rw [hstaff]
    exact hlt (hnil.mp hs)
  · rw [hrecs]; exact h.recsNodup
  · have := h.cons; omega

theorem InvA_update2 {cfg : Config} {σ σ' : SimState} (h : InvA cfg σ)
    (j : Nat) (e e' : Ent) (hget : σ.ents.get? j = some e) (hpcne : e.pc ≠ .done)
    (hidx : AfterJoin e'.pc → σ.staff ≠ [] → e'.idx < σ.staff.length)
    (hlf : LightFrame (setEnt σ j e') σ') : InvA cfg σ' := by
  obtain ⟨hcfg, hrecs, hgen, hstaff, hents, hcons⟩ := hlf
  refine InvA_update h j e e' hget hpcne hcfg hstaff hgen hents hrecs ?_ ?_
  · have := h.cons
    simp only [setEnt] at hcons
    omega
  · intro haj hne
    have hnil : σ'.staff ≠ [] ↔ σ.staff ≠ [] :=
      not_congr (by rw [← List.length_eq_zero, ← List.length_eq_zero, hstaff]; exact Iff.rfl)
    rw [hstaff]
    exact hidx haj (hnil.mp hne)

theorem runProc_invA {cfg : Config} {σ : SimState} (stream : ℕ → ℚ) (p : Pid)
    (h : InvA cfg σ) : InvA cfg (runProc σ stream p) := by
  cases p with
  | gen =>
    unfold runProc
    dsimp only
    by_cases hg : σ.genCount < σ.cfg.NUM_MAHASISWA.toNat
    · simp only [hg, if_true]
      have hNM : σ.cfg.NUM_MAHASISWA = cfg.NUM_MAHASISWA := by rw [h.cfgEq]
      refine ⟨h.cfgEq, h.staffLen, ?_, ?_, ?_, h.recsT, ?_, h.recsNodup, h.cons⟩
      · simp only [sched, List.length_append, List.length_singleton]
        exact congrArg (· + 1) h.genEq
      · simp only [sched, List.length_append, List.length_singleton]
        have := h.genEq
        rw [hNM] at hg
        omega
      · intro i ei hgi haj hne
        simp only [sched] at hgi hne ⊢
        by_cases hlt : i < σ.ents.length
        · rw [List.get?_append hlt] at hgi
          exact h.idxSet i ei hgi haj hne
        · by_cases heq : i = σ.ents.length
          · subst heq
            rw [List.get?_concat_length] at hgi
            injection hgi with hgi
            subst hgi
            rcases haj with hh | hh | hh | hh <;> cases hh
          · exfalso
            rw [List.get?_eq_none.mpr (by simp; omega)] at hgi
            cases hgi
      · intro r hr
        simp only [sched] at hr ⊢
        rcases h.recsDone r hr with ⟨er, hgr, hdone, hkel, hlt⟩
        exact ⟨er, List.get?_append (get?_some_lt hgr) ▸ hgr, hdone, hkel, hlt⟩
    · simp only [hg, if_false]
      exact h
  | ent i =>
    unfold runProc
    dsimp only
    cases hj : σ.ents.get? i with
    | none => simp only [hj]; exact h
    | some e =>
      simp only [hj]
      cases hpc : e.pc
      case start =>
        simp only [execEnt, hpc]
        exact InvA_update2 h i e _ hj (by simp [hpc])
          (by intro haj; rcases haj with hh | hh | hh | hh <;> cases hh)
          (LightFrame_requestRes _ _ _)
      case afterLaukReq =>
        simp only [execEnt, hpc]
        have h1 : InvA cfg { σ with rcount := σ.rcount + 1 } :=
          InvA_of_lightFrame h ⟨rfl, rfl, rfl, rfl, rfl, rfl⟩
        exact InvA_update2 h1 i e _ hj (by simp [hpc])
          (by intro haj; rcases haj with hh | hh | hh | hh <;> cases hh)
          (LightFrame_sched _ _ _ _)
      case afterLaukTimeout =>
        simp only [execEnt, hpc]
        have h1 : InvA cfg (releaseCall σ .lauk) :=
          InvA_of_lightFrame h (LightFrame_releaseCall σ .lauk)
        exact InvA_update2 h1 i e _ (by rw [releaseCall_ents]; exact hj) (by simp [hpc])
          (by intro haj; rcases haj with hh | hh | hh | hh <;> cases hh)
          (LightFrame_storePutCall _ _ _ _)
      case afterAngkutPut =>
        simp only [execEnt, hpc]
        split
        · exact InvA_update2 h i e _ hj (by simp [hpc])
            (by intro haj; rcases haj with hh | hh | hh | hh <;> cases hh)
            (LightFrame_requestRes _ _ _)
        · exact InvA_update2 h i e _ hj (by simp [hpc])
            (by intro haj; rcases haj with hh | hh | hh | hh <;> cases hh)
            (LightFrame_requestRes _ _ _)
      case afterAngkutReq =>
        simp only [execEnt, hpc]
        have h1 : InvA cfg { σ with rcount := σ.rcount + 1 } :=
          InvA_of_lightFrame h ⟨rfl, rfl, rfl, rfl, rfl, rfl⟩
        exact InvA_update2 h1 i e _ hj (by simp [hpc])
          (by intro haj; rcases haj with hh | hh | hh | hh <;> cases hh)
          (LightFrame_sched _ _ _ _)
      case afterAngkutTimeout =>
        simp only [execEnt, hpc]
        split
        · have h1 : InvA cfg (releaseCall σ .angkut) :=
            InvA_of_lightFrame h (LightFrame_releaseCall σ .angkut)
          exact InvA_update2 h1 i e _ (by rw [releaseCall_ents]; exact hj) (by simp [hpc])
            (by intro haj; rcases haj with hh | hh | hh | hh <;> cases hh)
            (LightFrame_requestRes _ _ _)
        · exact InvA_update2 h i e _ hj (by simp [hpc])
            (by intro haj; rcases haj with hh | hh | hh | hh <;> cases hh)
            (LightFrame_storeGetCall _ _ _)
      case afterDrainGet =>
        simp only [execEnt, hpc]
        split
        · have h1 : InvA cfg (releaseCall σ .angkut) :=
            InvA_of_lightFrame h (LightFrame_releaseCall σ .angkut)
          exact InvA_update2 h1 i e _ (by rw [releaseCall_ents]; exact hj) (by simp [hpc])
            (by intro haj; rcases haj with hh | hh | hh | hh <;> cases hh)
            (LightFrame_requestRes _ _ _)
        · exact InvA_update2 h i e _ hj (by simp [hpc])
            (by intro haj; rcases haj with hh | hh | hh | hh <;> cases hh)
            (LightFrame_storeGetCall _ _ _)
      case afterNasiReq =>
        simp only [execEnt, hpc]
        have h1 : InvA cfg { σ with rcount := σ.rcount + 1 } :=
          InvA_of_lightFrame h ⟨rfl, rfl, rfl, rfl, rfl, rfl⟩
        exact InvA_update2 h1 i e _ hj (by simp [hpc])
          (by intro haj; rcases haj with hh | hh | hh | hh <;> cases hh)
          (LightFrame_sched _ _ _ _)
      case afterNasiTimeout =>
        simp only [execEnt, hpc]
        have h1 : InvA cfg (releaseCall σ .nasi) :=
          InvA_of_lightFrame h (LightFrame_releaseCall σ .nasi)
        exact InvA_update2 h1 i e _ (by rw [releaseCall_ents]; exact hj) (by simp [hpc])
          (by intro haj; rcases haj with hh | hh | hh | hh <;> cases hh)
          (LightFrame_storePutCall _ _ _ _)
      case afterAntrianPut =>
        simp only [execEnt, hpc]
        have h1 : InvA cfg { σ with samples :=
            σ.samples ++ [⟨σ.now, σ.antrianQ.items.length⟩] } :=
          InvA_of_lightFrame h ⟨rfl, rfl, rfl, rfl, rfl, rfl⟩
        refine InvA_update2 h1 i e _ hj (by simp [hpc]) ?_ (LightFrame_requestRes _ _ _)
        intro _ hne
        have hmapne : σ.staff.map Resrc.users ≠ [] := by simpa using hne
        simpa using argminIdx_lt _ hmapne
      case afterStaffReq =>
        simp only [execEnt, hpc]
        have h1 : InvA cfg { σ with rcount := σ.rcount + 1 } :=
          InvA_of_lightFrame h ⟨rfl, rfl, rfl, rfl, rfl, rfl⟩
        refine InvA_update2 h1 i e _ hj (by simp [hpc]) ?_ (LightFrame_sched _ _ _ _)
        intro _ hne
        exact h.idxSet i e hj (Or.inl hpc) hne
      case afterStaffTimeout =>
        simp only [execEnt, hpc]
        have h1 : InvA cfg (releaseCall σ (.staff e.idx)) :=
          InvA_of_lightFrame h (LightFrame_releaseCall σ (.staff e.idx))
        refine InvA_update2 h1 i e _ (by rw [releaseCall_ents]; exact hj) (by simp [hpc])
          ?_ (LightFrame_storeGetCall _ _ _)
        intro _ hne
        have hne' : σ.staff ≠ [] := by
          intro hcon
          apply hne
          rw [← List.length_eq_zero] at hcon ⊢
          rw [(releaseCall_light σ (.staff e.idx)).2.2.2.1]
          exact hcon
        have := h.idxSet i e hj (Or.inr (Or.inl hpc)) hne'
        rw [(releaseCall_light σ (.staff e.idx)).2.2.2.1]
        exact this
      case afterAntrianGet =>
        simp only [execEnt, hpc]
        set r : MhsRecord :=
          { id := i, datang := e.datang, mulai := e.mulai, selesai := σ.now,
            tunggu := e.mulai - e.datang, layanan := e.svc, kelompok := e.idx + 1 }
          with hr
        have hidnotin : i ∉ σ.recs.map MhsRecord.id := by
          intro hmem
          rcases List.mem_map.mp hmem with ⟨r0, hr0mem, hr0id⟩
          rcases h.recsDone r0 hr0mem with ⟨er, hger, hdone, _, _⟩
          rw [hr0id, hj] at hger
          injection hger with hger
          rw [← hger] at hdone
          rw [hpc] at hdone
          cases hdone
        refine ⟨h.cfgEq, h.staffLen, ?_, ?_, ?_, ?_, ?_, ?_, h.cons⟩
        · simp only [setEnt, List.length_set]
          exact h.genEq
        · simp only [setEnt, List.length_set]
          exact h.entsLen
        · intro k ek hgk haj hne
          simp only [setEnt] at hgk ⊢
          by_cases hki : k = i
          · subst hki
            rw [List.get?_set_eq_of_lt _ (get?_some_lt hj)] at hgk
            injection hgk with hgk
            subst hgk
            exact h.idxSet k e hj (Or.inr (Or.inr (Or.inl hpc))) hne
          · rw [List.get?_set_ne _ _ (fun hh => hki hh.symm)] at hgk
            exact h.idxSet k ek hgk haj hne
        · intro r0 hr0
          simp only [setEnt] at hr0
          rcases List.mem_append.mp hr0 with hmem | hmem
          · exact h.recsT r0 hmem
          · rw [List.mem_singleton.mp hmem]
        · intro r0 hr0
          simp only [setEnt] at hr0 ⊢
          rcases List.mem_append.mp hr0 with hmem | hmem
          · rcases h.recsDone r0 hmem with ⟨er, hger, hdone, hkel, hlt⟩
            have hne0 : r0.id ≠ i := by
              intro hh
              rw [hh, hj] at hger
              injection hger with hger
              rw [← hger] at hdone
              rw [hpc] at hdone
              cases hdone
            exact ⟨er, by rw [List.get?_set_ne _ _ (fun hh => hne0 hh.symm)]; exact hger,
              hdone, hkel, hlt⟩
          · rw [List.mem_singleton.mp hmem]
            refine ⟨⟨.done, e.datang, e.mulai, e.svc, e.idx, e.drainLeft⟩, ?_, rfl, rfl, ?_⟩
            · rw [List.get?_set_eq_of_lt _ (get?_some_lt hj)]
            · intro hne
              exact h.idxSet i e hj (Or.inr (Or.inr (Or.inl hpc))) hne
        · simp only [setEnt, List.map_append, List.map_singleton]
          rw [List.nodup_append]
          exact ⟨h.recsNodup, List.nodup_singleton _,
            fun a ha hb => by rw [List.mem_singleton.mp hb] at ha; exact hidnotin ha⟩
      case done =>
        simp only [execEnt, hpc]
        exact h

theorem execAct_invA {cfg : Config} {σ : SimState} (stream : ℕ → ℚ) (a : Act)
    (h : InvA cfg σ) : InvA cfg (execAct σ stream a) := by
  cases a with
  | resume p => exact runProc_invA stream p h
  | storePut sid p =>
    simp only [execAct]
    split
    · next s2 w heq =>
      apply runProc_invA stream p
      apply InvA_of_lightFrame h
      cases sid with
      | angkutQ =>
        rcases getTrigger_pop heq with ⟨hne, htail⟩
        simp only [getStore] at hne htail
        refine ⟨by simp [sched, countGet, setStore], by simp [sched, countGet, setStore],
          by simp [sched, countGet, setStore], by simp [sched, countGet, setStore],
          by simp [sched, countGet, setStore], ?_⟩
        have h1 : (sched (countGet (setStore σ .angkutQ s2) .angkutQ) σ.now 1
            (.resume (.ent w))).getsAngkut = σ.getsAngkut + 1 := by
          simp [sched, countGet, setStore]
        have h2 : (sched (countGet (setStore σ .angkutQ s2) .angkutQ) σ.now 1
            (.resume (.ent w))).angkutQ.items = s2.items := by
          simp [sched, countGet, setStore]
        have h3 : (sched (countGet (setStore σ .angkutQ s2) .angkutQ) σ.now 1
            (.resume (.ent w))).putsAngkut = σ.putsAngkut := by
          simp [sched, countGet, setStore]
        rw [h1, h2, h3, htail]
        cases hi : σ.angkutQ.items with
        | nil => exact absurd hi hne
        | cons y ys => simp; omega
      | antrianQ =>
        refine ⟨by simp [sched, countGet, setStore], by simp [sched, countGet, setStore],
          by simp [sched, countGet, setStore], by simp [sched, countGet, setStore],
          by simp [sched, countGet, setStore], by simp [sched, countGet, setStore, getStore]⟩
    · next heq => exact runProc_invA stream p h
  | releaseRes rid =>
    simp only [execAct]
    split
    · next r2 w heq =>
      apply InvA_of_lightFrame h
      cases rid <;>
        exact ⟨by simp [sched, logGrant, setRes], by simp [sched, logGrant, setRes],
          by simp [sched, logGrant, setRes], by simp [sched, logGrant, setRes],
          by simp [sched, logGrant, setRes], by simp [sched, logGrant, setRes]⟩
    · next heq => exact h

theorem step_invA {cfg : Config} {σ σ' : SimState} {stream : ℕ → ℚ}
    (h : InvA cfg σ) (hs : step σ stream = some σ') : InvA cfg σ' := by
  unfold step at hs
  cases hfm : findMin σ.events with
  | none => rw [hfm] at hs; cases hs
  | some ev =>
    rw [hfm] at hs
    injection hs with hs
    subst hs
    apply execAct_invA
    exact InvA_of_lightFrame h ⟨rfl, rfl, rfl, rfl, rfl, rfl⟩

theorem stepN_invA {cfg : Config} {stream : ℕ → ℚ} :
    ∀ (n : Nat) (σ : SimState), InvA cfg σ → InvA cfg (stepN stream n σ) := by
  intro n
  induction n with
  | zero => intro σ h; exact h
  | succ m ih =>
    intro σ h
    unfold stepN
    cases hs : step σ stream with
    | none => exact h
    | some σ' => exact ih σ' (step_invA h hs)

theorem initState_invA (cfg : Config) : InvA cfg (initState cfg) := by
  refine ⟨rfl, by simp [initState], rfl, by simp [initState], ?_, ?_, ?_, ?_, rfl⟩
  · intro i ei hgi
    simp [initState] at hgi
  · intro r hr
    simp [initState] at hr
  · intro r hr
    simp [initState] at hr
  · simp [initState]

theorem runSim_invA (cfg : Config) (stream : ℕ → ℚ) (fuel : Nat) :
    InvA cfg (runSim cfg stream fuel) :=
  stepN_invA fuel (initState cfg) (initState_invA cfg)

/-! ## Claims settled by the structural invariant -/

/-- **C1 (amended)**: in every run, every record's computed wait field
`tunggu` equals its `mulai` field minus its `datang` field — `mulai` being
the time recorded at the main-queue-join instant (before the staff grant)
and `datang` the arrival time — rather than service-start minus
queue-join. -/
theorem C1_amended (cfg : Config) (stream : ℕ → ℚ) (fuel : Nat) :
    ∀ r ∈ (runSim cfg stream fuel).recs, r.tunggu = r.mulai - r.datang :=
  (runSim_invA cfg stream fuel).recsT

/-- Witness for C1 (amended), at the record of the population-1 run. -/
theorem C1_witness :
    (⟨0, 0, 1, 2, 1, 1, 1⟩ : MhsRecord).tunggu =
      (⟨0, 0, 1, 2, 1, 1, 1⟩ : MhsRecord).mulai -
        (⟨0, 0, 1, 2, 1, 1, 1⟩ : MhsRecord).datang :=
  C1_amended cfgOne zstream 40 ⟨0, 0, 1, 2, 1, 1, 1⟩ (by decide)

/-- **C5 (amended)**: conservation of the batch buffer — at every point of
every run the number of ids inserted equals the number removed plus the
number still buffered (the buffer never over-drains); removal of *every*
inserted id is not guaranteed (see the counterexample). -/
theorem C5_conservation (cfg : Config) (stream : ℕ → ℚ) (fuel : Nat) :
    (runSim cfg stream fuel).putsAngkut =
      (runSim cfg stream fuel).getsAngkut +
        (runSim cfg stream fuel).angkutQ.items.length :=
  (runSim_invA cfg stream fuel).cons

theorem nodup_lt_length_le {l : List Nat} {n : Nat} (hnd : l.Nodup)
    (hlt : ∀ x ∈ l, x < n) : l.length ≤ n := by
  classical
  have h1 : l.toFinset.card = l.length := List.toFinset_card_of_nodup hnd
  have h2 : l.toFinset ⊆ Finset.range n := by
    intro x hx
    rw [List.mem_toFinset] at hx
    exact Finset.mem_range.mpr (hlt x hx)
  have h3 := Finset.card_le_card h2
  rw [h1, Finset.card_range] at h3
  exact h3

/-- **C7 (amended)**: after any number of scheduler steps no entity appears
twice among the records (the record ids are distinct) and the number of
records is at most `Config.population`; exact equality can fail (see the
counterexample, where blocked drains leave entities undeparted). -/
theorem C7_amended (cfg : Config) (stream : ℕ → ℚ) (fuel : Nat) :
    ((runSim cfg stream fuel).recs.map MhsRecord.id).Nodup ∧
      (runSim cfg stream fuel).recs.length ≤ cfg.NUM_MAHASISWA.toNat := by
  have h := runSim_invA cfg stream fuel
  refine ⟨h.recsNodup, ?_⟩
  have hlen : ((runSim cfg stream fuel).recs.map MhsRecord.id).length =
      (runSim cfg stream fuel).recs.length := List.length_map _ _
  have hlt : ∀ x ∈ (runSim cfg stream fuel).recs.map MhsRecord.id,
      x < (runSim cfg stream fuel).ents.length := by
    intro x hx
    rcases List.mem_map.mp hx with ⟨r, hrmem, hrid⟩
    rcases h.recsDone r hrmem with ⟨er, hger, _, _, _⟩
    rw [← hrid]
    exact get?_some_lt hger
  have := nodup_lt_length_le h.recsNodup hlt
  rw [hlen] at this
  exact le_trans this h.entsLen

/-- **C10**: for every record of every run (with at least one group
configured, as the code requires for `np.argmin` not to crash), the stored
`kelompok` value is the entity's chosen zero-based group index plus one,
and it ranges over `1 .. NUM_KELOMPOK`. -/
theorem C10_kelompok (cfg : Config) (stream : ℕ → ℚ) (fuel : Nat)
    (hK : 1 ≤ cfg.NUM_KELOMPOK) :
    ∀ r ∈ (runSim cfg stream fuel).recs,
      ∃ e, (runSim cfg stream fuel).ents.get? r.id = some e ∧
        r.kelompok = e.idx + 1 ∧ 1 ≤ r.kelompok ∧
        r.kelompok ≤ cfg.NUM_KELOMPOK.toNat := by
  intro r hr
  have h := runSim_invA cfg stream fuel
  rcases h.recsDone r hr with ⟨er, hger, _, hkel, hlt⟩
  have hne : (runSim cfg stream fuel).staff ≠ [] := by
    intro hcon
    have := h.staffLen
    rw [hcon] at this
    simp at this
    omega
  have hidx := hlt hne
  rw [h.staffLen] at hidx
  exact ⟨er, hger, hkel, by omega, by omega⟩

/-- Witness for C10, at the record of the population-1 run. -/
theorem C10_witness :
    ∃ e, (runSim cfgOne zstream 40).ents.get? (⟨0, 0, 1, 2, 1, 1, 1⟩ : MhsRecord).id = some e ∧
      (⟨0, 0, 1, 2, 1, 1, 1⟩ : MhsRecord).kelompok = e.idx + 1 ∧
      1 ≤ (⟨0, 0, 1, 2, 1, 1, 1⟩ : MhsRecord).kelompok ∧
      (⟨0, 0, 1, 2, 1, 1, 1⟩ : MhsRecord).kelompok ≤ cfgOne.NUM_KELOMPOK.toNat :=
  C10_kelompok cfgOne zstream 40 (by decide) ⟨0, 0, 1, 2, 1, 1, 1⟩ (by decide)

/-! ## The timing invariant

For claim C2 we additionally track: the clock is nonnegative and
non-decreasing, pending events are never due in the past, each entity's
recorded times are ordered (`datang ≤ mulai ≤ now` once the main queue is
joined), drawn service times are nonnegative, an entity holding a pending
service-completion continuation resumes no earlier than `mulai + svc`, and —
the key structural fact behind all of these — every entity has at most one
pending continuation handle (a scheduled event, a resource-queue entry, or a
store-getter entry) at any time, as enforced by the cooperative scheduler. -/

/-- Program counters after the service timeout has been started (the local
`svc` has been drawn). -/
def PostSvc (pc : EPC) : Prop :=
  pc = .afterStaffTimeout ∨ pc = .afterAntrianGet

/-- The entity a processed event hands control to (directly or, for a put
event, as the continuation of the putter). -/
def actFor : Act → Option Nat
  | .resume (.ent i) => some i
  | .storePut _ (.ent i) => some i
  | _ => none

/-- The number of pending continuation handles of entity `i`: scheduled
events that resume it, resource-queue entries and store-getter entries. -/
def pendingFor (σ : SimState) (i : Nat) : Nat :=
  (σ.events.countP fun ev => actFor ev.act == some i)
    + σ.lauk.queue.count i + σ.angkut.queue.count i + σ.nasi.queue.count i
    + (σ.staff.map fun r => r.queue.count i).sum
    + σ.angkutQ.getQueue.count i + σ.antrianQ.getQueue.count i

theorem countP_erase_of_mem {l : List Event} {ev : Event} (h : ev ∈ l)
    (p : Event → Bool) :
    l.countP p = (l.erase ev).countP p + (if p ev then 1 else 0) := by
  rcases List.exists_erase_eq h with ⟨l1, l2, hnot, hl, herase⟩
  rw [herase, hl]
  simp [List.countP_append, List.countP_cons]
  omega

theorem reqTrigger_grant {r r2 : Resrc} {w : Nat} (h : reqTrigger r = (r2, some w)) :
    r.queue = w :: r2.queue ∧ r2.users = r.users + 1 ∧ r2.capacity = r.capacity ∧
      (r.users : Int) < r.capacity := by
  unfold reqTrigger at h
  cases hq : r.queue with
  | nil => rw [hq] at h; injection h with h1 h2; cases h2
  | cons a as =>
    rw [hq] at h
    dsimp only at h
    by_cases hc : (r.users : Int) < r.capacity
    · rw [if_pos hc] at h
      injection h with h1 h2
      injection h2 with h2
      subst h2
      rw [← h1]
      exact ⟨rfl, rfl, rfl, hc⟩
    · rw [if_neg hc] at h
      injection h with h1 h2
      cases h2

theorem reqTrigger_none {r r2 : Resrc} (h : reqTrigger r = (r2, none)) : r2 = r := by
  unfold reqTrigger at h
  cases hq : r.queue with
  | nil => rw [hq] at h; injection h with h1 h2; exact h1.symm
  | cons a as =>
    rw [hq] at h
    dsimp only at h
    by_cases hc : (r.users : Int) < r.capacity
    · rw [if_pos hc] at h; injection h with h1 h2; cases h2
    · rw [if_neg hc] at h; injection h with h1 h2; exact h1.symm

theorem getTrigger_pop2 {st s2 : Store} {w : Nat} (h : getTrigger st = (s2, some w)) :
    st.getQueue = w :: s2.getQueue ∧ ∃ y, st.items = y :: s2.items := by
  unfold getTrigger at h
  cases hq : st.getQueue with
  | nil => rw [hq] at h; injection h with h1 h2; cases h2
  | cons a as =>
    cases hi : st.items with
    | nil => rw [hq, hi] at h; injection h with h1 h2; cases h2
    | cons y ys =>
      rw [hq, hi] at h
      injection h with h1 h2
      injection h2 with h2
      subst h2
      rw [← h1]
      exact ⟨rfl, y, rfl⟩

theorem sum_map_set (rs : List Resrc) (k : Nat) (r' : Resrc) (f : Resrc → Nat) :
    ((rs.set k r').map f).sum +
        (if k < rs.length then f (rs.getD k ⟨0, 0, []⟩) else 0)
      = (rs.map f).sum + (if k < rs.length then f r' else 0) := by
  induction rs generalizing k with
  | nil => simp
  | cons r rest ih =>
    cases k with
    | zero => simp [List.set]; omega
    | succ k' =>
      simp only [List.set, List.map_cons, List.sum_cons, List.length_cons,
        Nat.succ_lt_succ_iff, List.getD_cons_succ]
      have := ih k'
      omega

theorem pendingFor_setEnt (σ : SimState) (j : Nat) (e : Ent) (i : Nat) :
    pendingFor (setEnt σ j e) i = pendingFor σ i := rfl

theorem pendingFor_sched (σ : SimState) (t : ℚ) (pr : Nat) (a : Act) (i : Nat) :
    pendingFor (sched σ t pr a) i =
      pendingFor σ i + (if actFor a = some i then 1 else 0) := by
  simp only [pendingFor, sched, List.countP_append, List.countP_cons, List.countP_nil]
  by_cases hc : actFor a = some i
  · simp [hc]
    omega
  · simp [hc]

theorem pendingFor_releaseCall (σ : SimState) (rid : ResId) (i : Nat) :
    pendingFor (releaseCall σ rid) i = pendingFor σ i := by
  cases rid with
  | lauk =>
    simp [pendingFor, releaseCall, sched, setRes, getRes, List.countP_append,
      List.countP_cons, List.countP_nil, actFor]
  | angkut =>
    simp [pendingFor, releaseCall, sched, setRes, getRes, List.countP_append,
      List.countP_cons, List.countP_nil, actFor]
  | nasi =>
    simp [pendingFor, releaseCall, sched, setRes, getRes, List.countP_append,
      List.countP_cons, List.countP_nil, actFor]
  | staff k =>
    simp only [pendingFor, releaseCall, sched, setRes, getRes, List.countP_append,
      List.countP_cons, List.countP_nil, actFor]
    have hsum := sum_map_set σ.staff k
      { σ.staff.getD k ⟨0, 0, []⟩ with users := (σ.staff.getD k ⟨0, 0, []⟩).users - 1 }
      (fun r => r.queue.count i)
    dsimp only at hsum
    by_cases hk : k < σ.staff.length
    · simp only [if_pos hk] at hsum
      simp at hsum ⊢
      omega
    · simp only [if_neg hk] at hsum
      simp at hsum ⊢
      omega

theorem pendingFor_storePutCall (σ : SimState) (sid : StoreId) (x : Nat) (p : Pid)
    (i : Nat) :
    pendingFor (storePutCall σ sid x p) i =
      pendingFor σ i + (if actFor (.storePut sid p) = some i then 1 else 0) := by
  cases sid with
  | angkutQ =>
    simp only [pendingFor, storePutCall, sched, setStore, getStore,
      List.countP_append, List.countP_cons, List.countP_nil]
    by_cases hc : actFor (Act.storePut .angkutQ p) = some i
    · simp [hc]; omega
    · simp [hc]
  | antrianQ =>
    simp only [pendingFor, storePutCall, sched, setStore, getStore,
      List.countP_append, List.countP_cons, List.countP_nil]
    by_cases hc : actFor (Act.storePut .antrianQ p) = some i
    · simp [hc]; omega
    · simp [hc]

theorem pendingFor_requestRes_le (σ : SimState) (rid : ResId) (j i : Nat) :
    pendingFor (requestRes σ rid j) i ≤ pendingFor σ i + (if i = j then 1 else 0) := by
  cases rid with
  | lauk =>
    unfold requestRes
    dsimp only
    split
    · next r2 w heq =>
      obtain ⟨hq, hu, hcap, hlt⟩ := reqTrigger_grant heq
      have hcnt := congrArg (List.count i) hq
      simp only [getRes] at hq hcnt
      simp [List.count_append, List.count_cons] at hcnt
      simp only [pendingFor, sched, logGrant, setRes, List.countP_append,
        List.countP_cons, List.countP_nil, actFor]
      simp only [List.count_append, List.count_cons, List.count_nil,
        beq_iff_eq, Option.some.injEq] at hcnt ⊢
      split_ifs at hcnt ⊢ <;> omega
    · next r2 heq =>
      have h0 := reqTrigger_none heq
      subst h0
      dsimp only [pendingFor, setRes, getRes]
      simp only [List.count_append, List.count_cons, List.count_nil, beq_iff_eq]
      split_ifs <;> omega
  | angkut =>
    unfold requestRes
    dsimp only
    split
    · next r2 w heq =>
      obtain ⟨hq, hu, hcap, hlt⟩ := reqTrigger_grant heq
      have hcnt := congrArg (List.count i) hq
      simp only [getRes] at hq hcnt
      simp [List.count_append, List.count_cons] at hcnt
      simp only [pendingFor, sched, logGrant, setRes, List.countP_append,
        List.countP_cons, List.countP_nil, actFor]
      simp only [List.count_append, List.count_cons, List.count_nil,
        beq_iff_eq, Option.some.injEq] at hcnt ⊢
      split_ifs at hcnt ⊢ <;> omega
    · next r2 heq =>
      have h0 := reqTrigger_none heq
      subst h0
      dsimp only [pendingFor, setRes, getRes]
      simp only [List.count_append, List.count_cons, List.count_nil, beq_iff_eq]
      split_ifs <;> omega
  | nasi =>
    unfold requestRes
    dsimp only
    split
    · next r2 w heq =>
      obtain ⟨hq, hu, hcap, hlt⟩ := reqTrigger_grant heq
      have hcnt := congrArg (List.count i) hq
      simp only [getRes] at hq hcnt
      simp [List.count_append, List.count_cons] at hcnt
      simp only [pendingFor, sched, logGrant, setRes, List.countP_append,
        List.countP_cons, List.countP_nil, actFor]
      simp only [List.count_append, List.count_cons, List.count_nil,
        beq_iff_eq, Option.some.injEq] at hcnt ⊢
      split_ifs at hcnt ⊢ <;> omega
    · next r2 heq =>
      have h0 := reqTrigger_none heq
      subst h0
      dsimp only [pendingFor, setRes, getRes]
      simp only [List.count_append, List.count_cons, List.count_nil, beq_iff_eq]
      split_ifs <;> omega
  | staff k =>
    unfold requestRes
    dsimp only
    split
    · next r2 w heq =>
      obtain ⟨hq, hu, hcap, hlt⟩ := reqTrigger_grant heq
      by_cases hk : k < σ.staff.length
      · have hcnt := congrArg (List.count i) hq
        simp only [getRes] at hq hcnt
        simp [List.count_append, List.count_cons] at hcnt
        simp only [pendingFor, sched, logGrant, setRes, getRes, List.countP_append,
          List.countP_cons, List.countP_nil, actFor]
        have hsum := sum_map_set σ.staff k r2 (fun r => r.queue.count i)
        simp only [if_pos hk] at hsum
        simp only [List.count_append, List.count_cons, List.count_nil,
          beq_iff_eq, Option.some.injEq, List.getD_eq_getElem?_getD] at hcnt hsum ⊢
        split_ifs at hcnt hsum ⊢ <;> omega
      · exfalso
        have hgd : σ.staff.getD k ⟨0, 0, []⟩ = ⟨0, 0, []⟩ :=
          List.getD_eq_default _ _ (le_of_not_lt hk)
        simp only [getRes, hgd] at hlt
        simp at hlt
    · next r2 heq =>
      have h0 := reqTrigger_none heq
      subst h0
      simp only [pendingFor, setRes, getRes]
      have hsum := sum_map_set σ.staff k
        { σ.staff.getD k ⟨0, 0, []⟩ with
            queue := (σ.staff.getD k ⟨0, 0, []⟩).queue ++ [j] }
        (fun r => r.queue.count i)
      dsimp only at hsum
      by_cases hk : k < σ.staff.length
      · simp only [if_pos hk] at hsum
        simp only [List.count_append, List.count_cons, List.count_nil, beq_iff_eq]
          at hsum ⊢
        split_ifs at hsum ⊢ <;> omega
      · simp only [if_neg hk] at hsum
        split_ifs <;> omega

theorem pendingFor_storeGetCall_le (σ : SimState) (sid : StoreId) (j i : Nat) :
    pendingFor (storeGetCall σ sid j) i ≤ pendingFor σ i + (if i = j then 1 else 0) := by
  cases sid with
  | angkutQ =>
    unfold storeGetCall
    dsimp only
    split
    · next s2 w heq =>
      obtain ⟨hq, y, hy⟩ := getTrigger_pop2 heq
      have hcnt := congrArg (List.count i) hq
      simp only [getStore] at hq hcnt
      simp [List.count_append, List.count_cons] at hcnt
      simp only [pendingFor, sched, countGet, setStore, List.countP_append,
        List.countP_cons, List.countP_nil, actFor]
      simp only [List.count_append, List.count_cons, List.count_nil,
        beq_iff_eq, Option.some.injEq] at hcnt ⊢
      split_ifs at hcnt ⊢ <;> omega
    · next s2 heq =>
      have h0 := getTrigger_none heq
      subst h0
      dsimp only [pendingFor, setStore, getStore]
      simp only [List.count_append, List.count_cons, List.count_nil, beq_iff_eq]
      split_ifs <;> omega
  | antrianQ =>
    unfold storeGetCall
    dsimp only
    split
    · next s2 w heq =>
      obtain ⟨hq, y, hy⟩ := getTrigger_pop2 heq
      have hcnt := congrArg (List.count i) hq
      simp only [getStore] at hq hcnt
      simp [List.count_append, List.count_cons] at hcnt
      simp only [pendingFor, sched, countGet, setStore, List.countP_append,
        List.countP_cons, List.countP_nil, actFor]
      simp only [List.count_append, List.count_cons, List.count_nil,
        beq_iff_eq, Option.some.injEq] at hcnt ⊢
      split_ifs at hcnt ⊢ <;> omega
    · next s2 heq =>
      have h0 := getTrigger_none heq
      subst h0
      dsimp only [pendingFor, setStore, getStore]
      simp only [List.count_append, List.count_cons, List.count_nil, beq_iff_eq]
      split_ifs <;> omega

theorem pendingFor_putWake (σ : SimState) (sid : StoreId) {s2 : Store} {w : Nat}
    (heq : getTrigger (getStore σ sid) = (s2, some w)) (i : Nat) :
    pendingFor (sched (countGet (setStore σ sid s2) sid) σ.now 1
      (.resume (.ent w))) i = pendingFor σ i := by
  obtain ⟨hq, y, hy⟩ := getTrigger_pop2 heq
  have hcnt := congrArg (List.count i) hq
  cases sid with
  | angkutQ =>
    simp only [getStore] at hcnt
    simp only [pendingFor, sched, countGet, setStore, List.countP_append,
      List.countP_cons, List.countP_nil, List.count_cons, beq_iff_eq,
      Option.some.injEq, actFor] at hcnt ⊢
    split_ifs at hcnt ⊢ <;> omega
  | antrianQ =>
    simp only [getStore] at hcnt
    simp only [pendingFor, sched, countGet, setStore, List.countP_append,
      List.countP_cons, List.countP_nil, List.count_cons, beq_iff_eq,
      Option.some.injEq, actFor] at hcnt ⊢
    split_ifs at hcnt ⊢ <;> omega

theorem pendingFor_resGrant (σ : SimState) (rid : ResId) {r2 : Resrc} {w : Nat}
    (heq : reqTrigger (getRes σ rid) = (r2, some w)) (i : Nat) :
    pendingFor (sched (logGrant (setRes σ rid r2) rid w) σ.now 1
      (.resume (.ent w))) i = pendingFor σ i := by
  obtain ⟨hq, hu, hcap, hlt⟩ := reqTrigger_grant heq
  have hcnt := congrArg (List.count i) hq
  cases rid with
  | lauk =>
    simp only [getRes] at hcnt
    simp only [pendingFor, sched, logGrant, setRes, List.countP_append,
      List.countP_cons, List.countP_nil, List.count_cons, beq_iff_eq,
      Option.some.injEq, actFor] at hcnt ⊢
    split_ifs at hcnt ⊢ <;> omega
  | angkut =>
    simp only [getRes] at hcnt
    simp only [pendingFor, sched, logGrant, setRes, List.countP_append,
      List.countP_cons, List.countP_nil, List.count_cons, beq_iff_eq,
      Option.some.injEq, actFor] at hcnt ⊢
    split_ifs at hcnt ⊢ <;> omega
  | nasi =>
    simp only [getRes] at hcnt
    simp only [pendingFor, sched, logGrant, setRes, List.countP_append,
      List.countP_cons, List.countP_nil, List.count_cons, beq_iff_eq,
      Option.some.injEq, actFor] at hcnt ⊢
    split_ifs at hcnt ⊢ <;> omega
  | staff k =>
    by_cases hk : k < σ.staff.length
    · simp only [getRes] at hcnt
      have hsum := sum_map_set σ.staff k r2 (fun r => r.queue.count i)
      simp only [if_pos hk] at hsum
      simp only [pendingFor, sched, logGrant, setRes, List.countP_append,
        List.countP_cons, List.countP_nil, List.count_cons, beq_iff_eq,
        Option.some.injEq, actFor, List.getD_eq_getElem?_getD] at hcnt hsum ⊢
      split_ifs at hcnt hsum ⊢ <;> omega
    · exfalso
      have hgd : σ.staff.getD k ⟨0, 0, []⟩ = ⟨0, 0, []⟩ :=
        List.getD_eq_default _ _ (le_of_not_lt hk)
      simp only [getRes, hgd] at hlt
      simp at hlt

theorem uniq_resolve {σ : SimState} {i : Nat} {ev : Event}
    (hu : pendingFor σ i ≤ 1) (hev : ev ∈ σ.events) (hact : actFor ev.act = some i) :
    (∀ ev2 ∈ σ.events.erase ev, ¬ actFor ev2.act = some i) ∧
    i ∉ σ.lauk.queue ∧ i ∉ σ.angkut.queue ∧ i ∉ σ.nasi.queue ∧
    (∀ r ∈ σ.staff, i ∉ r.queue) ∧
    i ∉ σ.angkutQ.getQueue ∧ i ∉ σ.antrianQ.getQueue := by
  have hc := countP_erase_of_mem hev (fun e0 => actFor e0.act == some i)
  rw [if_pos (by simp [hact])] at hc
  unfold pendingFor at hu
  rw [hc] at hu
  refine ⟨?_, ?_, ?_, ?_, ?_, ?_, ?_⟩
  · intro ev2 hev2 hact2
    have hpos : 0 < (σ.events.erase ev).countP fun e0 => actFor e0.act == some i :=
      List.countP_pos.mpr ⟨ev2, hev2, by simp [hact2]⟩
    omega
  · exact List.count_eq_zero.mp (by omega)
  · exact List.count_eq_zero.mp (by omega)
  · exact List.count_eq_zero.mp (by omega)
  · intro r hr
    have hsum0 : (σ.staff.map fun r => r.queue.count i).sum = 0 := by omega
    rw [List.sum_eq_zero_iff] at hsum0
    exact List.count_eq_zero.mp (hsum0 _ (List.mem_map_of_mem _ hr))
  · exact List.count_eq_zero.mp (by omega)
  · exact List.count_eq_zero.mp (by omega)

structure InvB (cfg : Config) (σ : SimState) : Prop where
  cfgEq : σ.cfg = cfg
  nowNN : 0 ≤ σ.now
  evTime : ∀ ev ∈ σ.events, σ.now ≤ ev.time
  datLe : ∀ e ∈ σ.ents, e.datang ≤ σ.now
  joinInv : ∀ e ∈ σ.ents, AfterJoin e.pc → e.datang ≤ e.mulai ∧ e.mulai ≤ σ.now
  svcNN : ∀ e ∈ σ.ents, PostSvc e.pc → 0 ≤ e.svc
  svcEv : ∀ ev ∈ σ.events, ∀ i, actFor ev.act = some i → ∀ e, σ.ents.get? i = some e →
    PostSvc e.pc → e.mulai + e.svc ≤ ev.time
  getterSvc : ∀ i ∈ σ.antrianQ.getQueue, ∀ e, σ.ents.get? i = some e →
    e.mulai + e.svc ≤ σ.now
  grantSafe : ∀ i, (i ∈ σ.lauk.queue ∨ i ∈ σ.angkut.queue ∨ i ∈ σ.nasi.queue ∨
    (∃ r ∈ σ.staff, i ∈ r.queue) ∨ i ∈ σ.angkutQ.getQueue) →
    ∀ e, σ.ents.get? i = some e → ¬ PostSvc e.pc
  uniq : ∀ i, pendingFor σ i ≤ 1
  hz : ∀ i, σ.ents.length ≤ i → pendingFor σ i = 0
  recsTime : ∀ r ∈ σ.recs, 0 ≤ r.tunggu ∧ 0 ≤ r.layanan ∧
    r.mulai + r.layanan ≤ r.selesai

theorem pendingFor_zero_notmem {σ : SimState} {i : Nat} (h : pendingFor σ i = 0) :
    (∀ ev ∈ σ.events, ¬ actFor ev.act = some i) ∧
    i ∉ σ.lauk.queue ∧ i ∉ σ.angkut.queue ∧ i ∉ σ.nasi.queue ∧
    (∀ r ∈ σ.staff, i ∉ r.queue) ∧
    i ∉ σ.angkutQ.getQueue ∧ i ∉ σ.antrianQ.getQueue := by
  unfold pendingFor at h
  refine ⟨?_, ?_, ?_, ?_, ?_, ?_, ?_⟩
  · intro ev hev hact
    have hpos : 0 < σ.events.countP fun e0 => actFor e0.act == some i :=
      List.countP_pos.mpr ⟨ev, hev, by simp [hact]⟩
    omega
  · exact List.count_eq_zero.mp (by omega)
  · exact List.count_eq_zero.mp (by omega)
  · exact List.count_eq_zero.mp (by omega)
  · intro r hr
    have hsum0 : (σ.staff.map fun r => r.queue.count i).sum = 0 := by omega
    rw [List.sum_eq_zero_iff] at hsum0
    exact List.count_eq_zero.mp (hsum0 _ (List.mem_map_of_mem _ hr))
  · exact List.count_eq_zero.mp (by omega)
  · exact List.count_eq_zero.mp (by omega)

theorem InvB_advance {cfg : Config} {σ : SimState} (hB : InvB cfg σ) (ev : Event)
    (hev : ev ∈ σ.events) (hmin : ∀ x ∈ σ.events, ev.time ≤ x.time) :
    InvB cfg { σ with now := ev.time, events := σ.events.erase ev } := by
  have hnow : σ.now ≤ ev.time := hB.evTime ev hev
  refine ⟨hB.cfgEq, le_trans hB.nowNN hnow, ?_, ?_, ?_, hB.svcNN, ?_, ?_,
    hB.grantSafe, ?_, ?_, hB.recsTime⟩
  · intro x hx
    exact hmin x (List.mem_of_mem_erase hx)
  · intro e he
    exact le_trans (hB.datLe e he) hnow
  · intro e he haj
    exact ⟨(hB.joinInv e he haj).1, le_trans (hB.joinInv e he haj).2 hnow⟩
  · intro ev2 hev2 i hact e hget hps
    exact hB.svcEv ev2 (List.mem_of_mem_erase hev2) i hact e hget hps
  · intro i hi e hget
    exact le_trans (hB.getterSvc i hi e hget) hnow
  · intro i
    have hle : ((σ.events.erase ev).countP fun e0 => actFor e0.act == some i) ≤
        σ.events.countP fun e0 => actFor e0.act == some i :=
      (List.erase_sublist ev σ.events).countP_le _
    have := hB.uniq i
    unfold pendingFor at this ⊢
    simp only at this ⊢
    omega
  · intro i hi
    have hle : ((σ.events.erase ev).countP fun e0 => actFor e0.act == some i) ≤
        σ.events.countP fun e0 => actFor e0.act == some i :=
      (List.erase_sublist ev σ.events).countP_le _
    have := hB.hz i hi
    unfold pendingFor at this ⊢
    simp only at this ⊢
    omega

theorem InvB_setEnt {cfg : Config} {σ : SimState} (hB : InvB cfg σ) (i : Nat)
    (e e' : Ent) (hget : σ.ents.get? i = some e) (hpend : pendingFor σ i = 0)
    (hdat : e'.datang ≤ σ.now)
    (hjoin : AfterJoin e'.pc → e'.datang ≤ e'.mulai ∧ e'.mulai ≤ σ.now)
    (hsvc : PostSvc e'.pc → 0 ≤ e'.svc) :
    InvB cfg (setEnt σ i e') := by
  obtain ⟨hnoev, hq1, hq2, hq3, hqs, hg1, hg2⟩ := pendingFor_zero_notmem hpend
  refine ⟨hB.cfgEq, hB.nowNN, hB.evTime, ?_, ?_, ?_, ?_, ?_, ?_, ?_, ?_, hB.recsTime⟩
  · intro e0 he0
    simp only [setEnt] at he0
    rcases List.mem_or_eq_of_mem_set he0 with hmem | rfl
    · exact hB.datLe e0 hmem
    · exact hdat
  · intro e0 he0 haj
    simp only [setEnt] at he0
    rcases List.mem_or_eq_of_mem_set he0 with hmem | rfl
    · exact hB.joinInv e0 hmem haj
    · exact hjoin haj
  · intro e0 he0 hps
    simp only [setEnt] at he0
    rcases List.mem_or_eq_of_mem_set he0 with hmem | rfl
    · exact hB.svcNN e0 hmem hps
    · exact hsvc hps
  · intro ev hev j hact e0 hget0 hps
    simp only [setEnt] at hget0
    by_cases hji : j = i
    · subst hji
      exact absurd hact (hnoev ev hev)
    · rw [List.get?_set_ne _ _ (fun hh => hji hh.symm)] at hget0
      exact hB.svcEv ev hev j hact e0 hget0 hps
  · intro j hj e0 hget0
    simp only [setEnt] at hj hget0
    by_cases hji : j = i
    · subst hji
      exact absurd hj hg2
    · rw [List.get?_set_ne _ _ (fun hh => hji hh.symm)] at hget0
      exact hB.getterSvc j hj e0 hget0
  · intro j hj e0 hget0
    simp only [setEnt] at hj hget0
    by_cases hji : j = i
    · subst hji
      exfalso
      rcases hj with hm | hm | hm | ⟨r, hr, hm⟩ | hm
      · exact hq1 hm
      · exact hq2 hm
      · exact hq3 hm
      · exact hqs r hr hm
      · exact hg1 hm
    · rw [List.get?_set_ne _ _ (fun hh => hji hh.symm)] at hget0
      exact hB.grantSafe j hj e0 hget0
  · intro j
    rw [pendingFor_setEnt]
    exact hB.uniq j
  · intro j hj
    rw [pendingFor_setEnt]
    apply hB.hz
    simpa [setEnt] using hj

theorem head_append_self {l : List Nat} {i w : Nat} {ws : List Nat}
    (h : l ++ [i] = w :: ws) : w = i ∨ w ∈ l := by
  cases l with
  | nil => simp at h; exact Or.inl h.1.symm
  | cons a as =>
    rw [List.cons_append] at h
    injection h with h1 h2
    exact Or.inr (h1 ▸ List.mem_cons_self a as)

theorem tail_mem_append {l : List Nat} {i w : Nat} {ws : List Nat}
    (h : l ++ [i] = w :: ws) : ∀ m ∈ ws, m ∈ l ∨ m = i := by
  intro m hm
  have hx : m ∈ l ++ [i] := h ▸ List.mem_cons_of_mem w hm
  rcases List.mem_append.mp hx with h1 | h1
  · exact Or.inl h1
  · exact Or.inr (List.mem_singleton.mp h1)

theorem staff_getD_mem (l : List Resrc) (j : Nat) (hj : j < l.length) :
    l.getD j ⟨0, 0, []⟩ ∈ l := by
  rw [List.getD_eq_getElem?_getD, List.getElem?_eq_getElem hj]
  exact List.getElem_mem _

/-- Generic preservation core for `InvB`: a state transformation that keeps the
clock, entities and records, adds only events that are safe for the service
invariant, only widens waiting queues by safe ids, and adds at most one pending
handle at an already-handle-free index, preserves the invariant. -/
theorem InvB_frame {cfg : Config} {σ σ2 : SimState} (hB : InvB cfg σ)
    (i : Nat) (hilen : i < σ.ents.length) (hpend0 : pendingFor σ i = 0)
    (hcfg : σ2.cfg = σ.cfg) (hnow : σ2.now = σ.now)
    (hents : σ2.ents = σ.ents) (hrecs : σ2.recs = σ.recs)
    (hev : ∀ ev ∈ σ2.events, ev ∈ σ.events ∨
      (σ.now ≤ ev.time ∧ ∀ j, actFor ev.act = some j →
        ∀ e0, σ.ents.get? j = some e0 → PostSvc e0.pc → e0.mulai + e0.svc ≤ ev.time))
    (hgq : ∀ m ∈ σ2.antrianQ.getQueue, m ∈ σ.antrianQ.getQueue ∨
      (∀ e0, σ.ents.get? m = some e0 → e0.mulai + e0.svc ≤ σ.now))
    (hrq : ∀ m, (m ∈ σ2.lauk.queue ∨ m ∈ σ2.angkut.queue ∨ m ∈ σ2.nasi.queue ∨
        (∃ r ∈ σ2.staff, m ∈ r.queue) ∨ m ∈ σ2.angkutQ.getQueue) →
      (m ∈ σ.lauk.queue ∨ m ∈ σ.angkut.queue ∨ m ∈ σ.nasi.queue ∨
        (∃ r ∈ σ.staff, m ∈ r.queue) ∨ m ∈ σ.angkutQ.getQueue) ∨
      (∀ e0, σ.ents.get? m = some e0 → ¬ PostSvc e0.pc))
    (hpf : ∀ j, pendingFor σ2 j ≤ pendingFor σ j + (if j = i then 1 else 0)) :
    InvB cfg σ2 := by
  refine ⟨hcfg.trans hB.cfgEq, hnow ▸ hB.nowNN, ?_, ?_, ?_, ?_, ?_, ?_, ?_, ?_, ?_, ?_⟩
  · intro ev hev2
    rcases hev ev hev2 with h | h
    · exact hnow ▸ hB.evTime ev h
    · exact hnow ▸ h.1
  · intro e0 he0
    rw [hents] at he0
    exact hnow ▸ hB.datLe e0 he0
  · intro e0 he0 haj
    rw [hents] at he0
    exact ⟨(hB.joinInv e0 he0 haj).1, hnow ▸ (hB.joinInv e0 he0 haj).2⟩
  · intro e0 he0 hps
    rw [hents] at he0
    exact hB.svcNN e0 he0 hps
  · intro ev hev2 j hact e0 hget0 hps
    rw [hents] at hget0
    rcases hev ev hev2 with h | h
    · exact hB.svcEv ev h j hact e0 hget0 hps
    · exact h.2 j hact e0 hget0 hps
  · intro m hm e0 hget0
    rw [hents] at hget0
    rcases hgq m hm with h | h
    · exact hnow ▸ hB.getterSvc m h e0 hget0
    · exact hnow ▸ h e0 hget0
  · intro m hm e0 hget0
    rw [hents] at hget0
    rcases hrq m hm with h | h
    · exact hB.grantSafe m h e0 hget0
    · exact h e0 hget0
  · intro j
    have := hpf j
    by_cases hji : j = i
    · subst hji
      rw [hpend0] at this
      simpa using this
    · rw [if_neg hji] at this
      exact le_trans this (hB.uniq j)
  · intro j hj
    rw [hents] at hj
    have := hpf j
    rw [if_neg (by omega), hB.hz j hj] at this
    omega
  · intro r hr
    rw [hrecs] at hr
    exact hB.recsTime r hr

theorem InvB_schedSelf {cfg : Config} {σ : SimState} (hB : InvB cfg σ)
    (i : Nat) (e : Ent) (hget : σ.ents.get? i = some e) (hpend : pendingFor σ i = 0)
    {t : ℚ} {pr : Nat} (ht : σ.now ≤ t)
    (hbound : PostSvc e.pc → e.mulai + e.svc ≤ t) :
    InvB cfg (sched σ t pr (.resume (.ent i))) := by
  refine InvB_frame hB i (get?_some_lt hget) hpend rfl rfl rfl rfl ?_ ?_ ?_ ?_
  · intro ev hev
    simp only [sched] at hev
    rcases List.mem_append.mp hev with h | h
    · exact Or.inl h
    · right
      rw [List.mem_singleton] at h
      subst h
      refine ⟨ht, ?_⟩
      intro j hact e0 hget0 hps
      simp only [actFor, Option.some.injEq] at hact
      subst hact
      rw [hget] at hget0
      injection hget0 with hg
      subst hg
      exact hbound hps
  · intro m hm
    exact Or.inl hm
  · intro m hm
    exact Or.inl hm
  · intro j
    rw [pendingFor_sched]
    simp only [actFor, Option.some.injEq]
    split_ifs with h1 h2 h2 <;> omega

theorem setRes_mem_anal {σ : SimState} {rid : ResId} {i m : Nat} {r2 : Resrc}
    (hsub : ∀ x ∈ r2.queue, x ∈ (getRes σ rid).queue ∨ x = i)
    (hm : m ∈ (setRes σ rid r2).lauk.queue ∨ m ∈ (setRes σ rid r2).angkut.queue ∨
      m ∈ (setRes σ rid r2).nasi.queue ∨
      (∃ r ∈ (setRes σ rid r2).staff, m ∈ r.queue) ∨
      m ∈ (setRes σ rid r2).angkutQ.getQueue) :
    (m ∈ σ.lauk.queue ∨ m ∈ σ.angkut.queue ∨ m ∈ σ.nasi.queue ∨
      (∃ r ∈ σ.staff, m ∈ r.queue) ∨ m ∈ σ.angkutQ.getQueue) ∨ m = i := by
  cases rid with
  | lauk =>
    simp only [setRes, getRes] at hm hsub
    rcases hm with h|h|h|h|h
    · rcases hsub m h with h1|h1
      · exact Or.inl (Or.inl h1)
      · exact Or.inr h1
    · exact Or.inl (Or.inr (Or.inl h))
    · exact Or.inl (Or.inr (Or.inr (Or.inl h)))
    · exact Or.inl (Or.inr (Or.inr (Or.inr (Or.inl h))))
    · exact Or.inl (Or.inr (Or.inr (Or.inr (Or.inr h))))
  | angkut =>
    simp only [setRes, getRes] at hm hsub
    rcases hm with h|h|h|h|h
    · exact Or.inl (Or.inl h)
    · rcases hsub m h with h1|h1
      · exact Or.inl (Or.inr (Or.inl h1))
      · exact Or.inr h1
    · exact Or.inl (Or.inr (Or.inr (Or.inl h)))
    · exact Or.inl (Or.inr (Or.inr (Or.inr (Or.inl h))))
    · exact Or.inl (Or.inr (Or.inr (Or.inr (Or.inr h))))
  | nasi =>
    simp only [setRes, getRes] at hm hsub
    rcases hm with h|h|h|h|h
    · exact Or.inl (Or.inl h)
    · exact Or.inl (Or.inr (Or.inl h))
    · rcases hsub m h with h1|h1
      · exact Or.inl (Or.inr (Or.inr (Or.inl h1)))
      · exact Or.inr h1
    · exact Or.inl (Or.inr (Or.inr (Or.inr (Or.inl h))))
    · exact Or.inl (Or.inr (Or.inr (Or.inr (Or.inr h))))
  | staff j =>
    simp only [setRes, getRes] at hm hsub
    rcases hm with h|h|h|h|h
    · exact Or.inl (Or.inl h)
    · exact Or.inl (Or.inr (Or.inl h))
    · exact Or.inl (Or.inr (Or.inr (Or.inl h)))
    · rcases h with ⟨r, hr, hmr⟩
      rcases List.mem_or_eq_of_mem_set hr with h1 | rfl
      · exact Or.inl (Or.inr (Or.inr (Or.inr (Or.inl ⟨r, h1, hmr⟩))))
      · rcases hsub m hmr with h1 | h1
        · rcases Nat.lt_or_ge j σ.staff.length with hj | hj
          · exact Or.inl (Or.inr (Or.inr (Or.inr
              (Or.inl ⟨_, staff_getD_mem _ _ hj, h1⟩))))
          · rw [List.getD_eq_default _ _ hj] at h1
            exact absurd h1 (List.not_mem_nil m)
        · exact Or.inr h1
    · exact Or.inl (Or.inr (Or.inr (Or.inr (Or.inr h))))

theorem req_mem_anal {σ : SimState} {rid : ResId} {i m w : Nat} {r2 : Resrc}
    (hq : (getRes σ rid).queue ++ [i] = w :: r2.queue)
    (hm : m ∈ (setRes σ rid r2).lauk.queue ∨ m ∈ (setRes σ rid r2).angkut.queue ∨
      m ∈ (setRes σ rid r2).nasi.queue ∨
      (∃ r ∈ (setRes σ rid r2).staff, m ∈ r.queue) ∨
      m ∈ (setRes σ rid r2).angkutQ.getQueue) :
    (m ∈ σ.lauk.queue ∨ m ∈ σ.angkut.queue ∨ m ∈ σ.nasi.queue ∨
      (∃ r ∈ σ.staff, m ∈ r.queue) ∨ m ∈ σ.angkutQ.getQueue) ∨ m = i :=
  setRes_mem_anal (tail_mem_append hq) hm

theorem req_mem_anal2 {σ : SimState} {rid : ResId} {i m : Nat}
    (hm : m ∈ (setRes σ rid
        { getRes σ rid with queue := (getRes σ rid).queue ++ [i] }).lauk.queue ∨
      m ∈ (setRes σ rid
        { getRes σ rid with queue := (getRes σ rid).queue ++ [i] }).angkut.queue ∨
      m ∈ (setRes σ rid
        { getRes σ rid with queue := (getRes σ rid).queue ++ [i] }).nasi.queue ∨
      (∃ r ∈ (setRes σ rid
        { getRes σ rid with queue := (getRes σ rid).queue ++ [i] }).staff, m ∈ r.queue) ∨
      m ∈ (setRes σ rid
        { getRes σ rid with queue := (getRes σ rid).queue ++ [i] }).angkutQ.getQueue) :
    (m ∈ σ.lauk.queue ∨ m ∈ σ.angkut.queue ∨ m ∈ σ.nasi.queue ∨
      (∃ r ∈ σ.staff, m ∈ r.queue) ∨ m ∈ σ.angkutQ.getQueue) ∨ m = i :=
  setRes_mem_anal (fun _ hx => (List.mem_append.mp hx).imp id List.mem_singleton.mp) hm

theorem InvB_requestSelf {cfg : Config} {σ : SimState} (hB : InvB cfg σ)
    (i : Nat) (e : Ent) (hget : σ.ents.get? i = some e) (hpend : pendingFor σ i = 0)
    (rid : ResId) (hsafe : ¬ PostSvc e.pc) :
    InvB cfg (requestRes σ rid i) := by
  have hsafeI : ∀ e0, σ.ents.get? i = some e0 → ¬ PostSvc e0.pc := by
    intro e0 hg0
    rw [hget] at hg0
    injection hg0 with hg
    subst hg
    exact hsafe
  have hsafeQ : ∀ (rd : ResId) (w : Nat), w ∈ (getRes σ rd).queue →
      ∀ e0, σ.ents.get? w = some e0 → ¬ PostSvc e0.pc := by
    intro rd w hw
    apply hB.grantSafe
    cases rd with
    | lauk => exact Or.inl hw
    | angkut => exact Or.inr (Or.inl hw)
    | nasi => exact Or.inr (Or.inr (Or.inl hw))
    | staff j =>
      simp only [getRes] at hw
      rcases Nat.lt_or_ge j σ.staff.length with hj | hj
      · exact Or.inr (Or.inr (Or.inr (Or.inl ⟨_, staff_getD_mem _ _ hj, hw⟩)))
      · rw [List.getD_eq_default _ _ hj] at hw
        exact absurd hw (List.not_mem_nil w)
  refine InvB_frame hB i (get?_some_lt hget) hpend ?_ ?_ ?_ ?_ ?_ ?_ ?_ ?_
  · cases rid <;> (unfold requestRes; dsimp only; split) <;> rfl
  · cases rid <;> (unfold requestRes; dsimp only; split) <;> rfl
  · cases rid <;> (unfold requestRes; dsimp only; split) <;> rfl
  · cases rid <;> (unfold requestRes; dsimp only; split) <;> rfl
  · cases rid <;> (unfold requestRes; dsimp only; split) <;>
      (rename_i heq
       intro ev hev
       first
       | exact Or.inl hev
       | (rcases List.mem_append.mp hev with h | h
          · exact Or.inl h
          · right
            rw [List.mem_singleton] at h
            subst h
            refine ⟨le_refl _, ?_⟩
            intro j hact e0 hget0 hps
            simp only [actFor, Option.some.injEq] at hact
            subst hact
            rcases head_append_self (reqTrigger_grant heq).1 with h1 | h1
            · exact absurd hps (hsafeI e0 (h1 ▸ hget0))
            · exact absurd hps (hsafeQ _ _ h1 e0 hget0)))
  · cases rid <;> (unfold requestRes; dsimp only; split) <;> (intro m hm; exact Or.inl hm)
  · cases rid <;> (unfold requestRes; dsimp only; split) <;>
      (rename_i heq
       intro m hm
       first
       | (rcases req_mem_anal (reqTrigger_grant heq).1 hm with h | h
          · exact Or.inl h
          · subst h
            exact Or.inr hsafeI)
       | (rcases reqTrigger_none heq with rfl
          rcases req_mem_anal2 hm with h | h
          · exact Or.inl h
          · subst h
            exact Or.inr hsafeI))
  · intro j
    exact pendingFor_requestRes_le σ rid i j

theorem InvB_putSelf {cfg : Config} {σ : SimState} (hB : InvB cfg σ)
    (i : Nat) (e : Ent) (hget : σ.ents.get? i = some e) (hpend : pendingFor σ i = 0)
    (sid : StoreId) (x : Nat) (hsafe : ¬ PostSvc e.pc) :
    InvB cfg (storePutCall σ sid x (.ent i)) := by
  have hsafeI : ∀ e0, σ.ents.get? i = some e0 → ¬ PostSvc e0.pc := by
    intro e0 hg0
    rw [hget] at hg0
    injection hg0 with hg
    subst hg
    exact hsafe
  refine InvB_frame hB i (get?_some_lt hget) hpend ?_ ?_ ?_ ?_ ?_ ?_ ?_ ?_
  · cases sid <;> rfl
  · cases sid <;> rfl
  · cases sid <;> rfl
  · cases sid <;> rfl
  · cases sid <;>
      (intro ev hev
       rcases List.mem_append.mp hev with h | h
       · exact Or.inl h
       · right
         rw [List.mem_singleton] at h
         subst h
         refine ⟨le_refl _, ?_⟩
         intro j hact e0 hget0 hps
         simp only [actFor, Option.some.injEq] at hact
         subst hact
         exact absurd hps (hsafeI e0 hget0))
  · cases sid <;> (intro m hm; exact Or.inl hm)
  · cases sid <;> (intro m hm; exact Or.inl hm)
  · intro j
    rw [pendingFor_storePutCall]
    simp only [actFor, Option.some.injEq]
    split_ifs <;> omega

theorem InvB_releaseCall {cfg : Config} {σ : SimState} (hB : InvB cfg σ)
    (i : Nat) (hilen : i < σ.ents.length) (hpend : pendingFor σ i = 0)
    (rid : ResId) : InvB cfg (releaseCall σ rid) := by
  refine InvB_frame hB i hilen hpend ?_ ?_ ?_ ?_ ?_ ?_ ?_ ?_
  · cases rid <;> rfl
  · cases rid <;> rfl
  · cases rid <;> rfl
  · cases rid <;> rfl
  · cases rid <;>
      (intro ev hev
       rcases List.mem_append.mp hev with h | h
       · exact Or.inl h
       · right
         rw [List.mem_singleton] at h
         subst h
         refine ⟨le_refl _, ?_⟩
         intro j hact e0 hget0 hps
         simp only [actFor] at hact
         exact Option.noConfusion hact)
  · cases rid <;> (intro m hm; exact Or.inl hm)
  · cases rid with
    | lauk => intro m hm; exact Or.inl hm
    | angkut => intro m hm; exact Or.inl hm
    | nasi => intro m hm; exact Or.inl hm
    | staff k =>
      intro m hm
      left
      rcases hm with h|h|h|h|h
      · exact Or.inl h
      · exact Or.inr (Or.inl h)
      · exact Or.inr (Or.inr (Or.inl h))
      · rcases h with ⟨r, hr, hmr⟩
        rcases List.mem_or_eq_of_mem_set hr with h1 | rfl
        · exact Or.inr (Or.inr (Or.inr (Or.inl ⟨r, h1, hmr⟩)))
        · rcases Nat.lt_or_ge k σ.staff.length with hk | hk
          · exact Or.inr (Or.inr (Or.inr (Or.inl ⟨_, staff_getD_mem _ _ hk, hmr⟩)))
          · have hmr2 : m ∈ (σ.staff.getD k ⟨0, 0, []⟩).queue := hmr
            rw [List.getD_eq_default _ _ hk] at hmr2
            exact absurd hmr2 (List.not_mem_nil m)
      · exact Or.inr (Or.inr (Or.inr (Or.inr h)))
  · intro j
    rw [pendingFor_releaseCall]
    exact Nat.le_add_right _ _

theorem InvB_getSelf {cfg : Config} {σ : SimState} (hB : InvB cfg σ)
    (i : Nat) (e : Ent) (hget : σ.ents.get? i = some e) (hpend : pendingFor σ i = 0)
    (sid : StoreId)
    (condA : sid = .angkutQ → ¬ PostSvc e.pc)
    (condB : sid = .antrianQ → e.mulai + e.svc ≤ σ.now) :
    InvB cfg (storeGetCall σ sid i) := by
  refine InvB_frame hB i (get?_some_lt hget) hpend ?_ ?_ ?_ ?_ ?_ ?_ ?_ ?_
  · cases sid <;> (unfold storeGetCall; dsimp only; split) <;> rfl
  · cases sid <;> (unfold storeGetCall; dsimp only; split) <;> rfl
  · cases sid <;> (unfold storeGetCall; dsimp only; split) <;> rfl
  · cases sid <;> (unfold storeGetCall; dsimp only; split) <;> rfl
  · cases sid with
    | angkutQ =>
      unfold storeGetCall
      dsimp only
      split
      · rename_i s2 w heq
        intro ev hev
        rcases List.mem_append.mp hev with h | h
        · exact Or.inl h
        · right
          rw [List.mem_singleton] at h
          subst h
          refine ⟨le_refl _, ?_⟩
          intro j hact e0 hget0 hps
          simp only [actFor, Option.some.injEq] at hact
          subst hact
          rcases head_append_self (getTrigger_pop2 heq).1 with h1 | h1
          · rw [h1, hget] at hget0
            injection hget0 with hg
            subst hg
            exact absurd hps (condA rfl)
          · exact absurd hps
              (hB.grantSafe _ (Or.inr (Or.inr (Or.inr (Or.inr h1)))) e0 hget0)
      · intro ev hev
        exact Or.inl hev
    | antrianQ =>
      unfold storeGetCall
      dsimp only
      split
      · rename_i s2 w heq
        intro ev hev
        rcases List.mem_append.mp hev with h | h
        · exact Or.inl h
        · right
          rw [List.mem_singleton] at h
          subst h
          refine ⟨le_refl _, ?_⟩
          intro j hact e0 hget0 hps
          simp only [actFor, Option.some.injEq] at hact
          subst hact
          rcases head_append_self (getTrigger_pop2 heq).1 with h1 | h1
          · rw [h1, hget] at hget0
            injection hget0 with hg
            subst hg
            exact condB rfl
          · exact hB.getterSvc _ h1 e0 hget0
      · intro ev hev
        exact Or.inl hev
  · cases sid with
    | angkutQ =>
      unfold storeGetCall
      dsimp only
      split
      · intro m hm; exact Or.inl hm
      · intro m hm; exact Or.inl hm
    | antrianQ =>
      unfold storeGetCall
      dsimp only
      split
      · rename_i s2 w heq
        intro m hm
        rcases tail_mem_append (getTrigger_pop2 heq).1 m hm with h1 | h1
        · exact Or.inl h1
        · subst h1
          right
          intro e0 hget0
          rw [hget] at hget0
          injection hget0 with hg
          subst hg
          exact condB rfl
      · rename_i s2 heq
        intro m hm
        rcases getTrigger_none heq with rfl
        rcases List.mem_append.mp hm with h1 | h1
        · exact Or.inl h1
        · rw [List.mem_singleton] at h1
          subst h1
          right
          intro e0 hget0
          rw [hget] at hget0
          injection hget0 with hg
          subst hg
          exact condB rfl
  · cases sid with
    | angkutQ =>
      unfold storeGetCall
      dsimp only
      split
      · rename_i s2 w heq
        intro m hm
        rcases hm with h|h|h|h|h
        · exact Or.inl (Or.inl h)
        · exact Or.inl (Or.inr (Or.inl h))
        · exact Or.inl (Or.inr (Or.inr (Or.inl h)))
        · exact Or.inl (Or.inr (Or.inr (Or.inr (Or.inl h))))
        · rcases tail_mem_append (getTrigger_pop2 heq).1 m h with h1 | h1
          · exact Or.inl (Or.inr (Or.inr (Or.inr (Or.inr h1))))
          · subst h1
            right
            intro e0 hget0
            rw [hget] at hget0
            injection hget0 with hg
            subst hg
            exact condA rfl
      · rename_i s2 heq
        intro m hm
        rcases getTrigger_none heq with rfl
        rcases hm with h|h|h|h|h
        · exact Or.inl (Or.inl h)
        · exact Or.inl (Or.inr (Or.inl h))
        · exact Or.inl (Or.inr (Or.inr (Or.inl h)))
        · exact Or.inl (Or.inr (Or.inr (Or.inr (Or.inl h))))
        · rcases List.mem_append.mp h with h1 | h1
          · exact Or.inl (Or.inr (Or.inr (Or.inr (Or.inr h1))))
          · rw [List.mem_singleton] at h1
            subst h1
            right
            intro e0 hget0
            rw [hget] at hget0
            injection hget0 with hg
            subst hg
            exact condA rfl
    | antrianQ =>
      unfold storeGetCall
      dsimp only
      split
      · intro m hm; exact Or.inl hm
      · intro m hm; exact Or.inl hm
  · intro j
    exact pendingFor_storeGetCall_le σ sid i j

theorem InvB_irrel {cfg : Config} {σ : SimState} (hB : InvB cfg σ) (n : Nat) :
    InvB cfg { σ with rcount := n } :=
  ⟨hB.cfgEq, hB.nowNN, hB.evTime, hB.datLe, hB.joinInv, hB.svcNN, hB.svcEv,
   hB.getterSvc, hB.grantSafe, hB.uniq, hB.hz, hB.recsTime⟩

theorem InvB_samples {cfg : Config} {σ : SimState} (hB : InvB cfg σ)
    (sm : List QSample) : InvB cfg { σ with samples := sm } :=
  ⟨hB.cfgEq, hB.nowNN, hB.evTime, hB.datLe, hB.joinInv, hB.svcNN, hB.svcEv,
   hB.getterSvc, hB.grantSafe, hB.uniq, hB.hz, hB.recsTime⟩

theorem InvB_recsAppend {cfg : Config} {σ : SimState} (hB : InvB cfg σ)
    (r : MhsRecord) (h1 : 0 ≤ r.tunggu) (h2 : 0 ≤ r.layanan)
    (h3 : r.mulai + r.layanan ≤ r.selesai) :
    InvB cfg { σ with recs := σ.recs ++ [r] } := by
  refine ⟨hB.cfgEq, hB.nowNN, hB.evTime, hB.datLe, hB.joinInv, hB.svcNN, hB.svcEv,
   hB.getterSvc, hB.grantSafe, hB.uniq, hB.hz, ?_⟩
  intro r0 hr0
  rcases List.mem_append.mp hr0 with h | h
  · exact hB.recsTime r0 h
  · rw [List.mem_singleton] at h
    subst h
    exact ⟨h1, h2, h3⟩

theorem execEnt_invB {cfg : Config} {σ : SimState} {stream : ℕ → ℚ} {i : Nat} {e : Ent}
    (hstream : ∀ n, 0 ≤ stream n)
    (hmin : 0 ≤ cfg.MIN_SERVICE_TIME)
    (hmaxmin : cfg.MIN_SERVICE_TIME ≤ cfg.MAX_SERVICE_TIME)
    (hB : InvB cfg σ) (hget : σ.ents.get? i = some e) (hpend : pendingFor σ i = 0)
    (hbound : PostSvc e.pc → e.mulai + e.svc ≤ σ.now) :
    InvB cfg (execEnt σ stream i e) := by
  have hilen := get?_some_lt hget
  have hemem := List.get?_mem hget
  have hsetget : ∀ (σ1 : SimState) (e1 : Ent), σ1.ents = σ.ents →
      (setEnt σ1 i e1).ents.get? i = some e1 := by
    intro σ1 e1 hE
    simp only [setEnt, hE]
    exact List.get?_set_eq_of_lt _ hilen
  cases hpc : e.pc with
  | start =>
    simp only [execEnt, hpc]
    have h1 := InvB_setEnt hB i e { e with datang := σ.now, pc := .afterLaukReq }
      hget hpend (le_refl _)
      (by intro haj; rcases haj with hh | hh | hh | hh <;> cases hh)
      (by intro hps; rcases hps with hh | hh <;> cases hh)
    exact InvB_requestSelf h1 i { e with datang := σ.now, pc := .afterLaukReq }
      (hsetget _ _ rfl) hpend .lauk
      (by intro hps; rcases hps with hh | hh <;> cases hh)
  | afterLaukReq =>
    simp only [execEnt, hpc]
    have h1 := InvB_irrel hB (σ.rcount + 1)
    have h2 := InvB_setEnt h1 i e { e with pc := .afterLaukTimeout }
      hget hpend (hB.datLe e hemem)
      (by intro haj; rcases haj with hh | hh | hh | hh <;> cases hh)
      (by intro hps; rcases hps with hh | hh <;> cases hh)
    exact InvB_schedSelf h2 i { e with pc := .afterLaukTimeout }
      (hsetget _ _ rfl) hpend
      (by have hx := hstream σ.rcount; simp only [setEnt]; nlinarith)
      (by intro hps; rcases hps with hh | hh <;> cases hh)
  | afterLaukTimeout =>
    simp only [execEnt, hpc]
    have h1 := InvB_releaseCall hB i hilen hpend .lauk
    have hpend1 : pendingFor (releaseCall σ .lauk) i = 0 := by
      rw [pendingFor_releaseCall]; exact hpend
    have h2 := InvB_setEnt h1 i e { e with pc := .afterAngkutPut }
      (by rw [releaseCall_ents]; exact hget) hpend1 (hB.datLe e hemem)
      (by intro haj; rcases haj with hh | hh | hh | hh <;> cases hh)
      (by intro hps; rcases hps with hh | hh <;> cases hh)
    exact InvB_putSelf h2 i { e with pc := .afterAngkutPut }
      (hsetget _ _ (releaseCall_ents σ .lauk)) hpend1 .angkutQ i
      (by intro hps; rcases hps with hh | hh <;> cases hh)
  | afterAngkutPut =>
    simp only [execEnt, hpc]
    split
    · have h1 := InvB_setEnt hB i e { e with pc := .afterAngkutReq }
        hget hpend (hB.datLe e hemem)
        (by intro haj; rcases haj with hh | hh | hh | hh <;> cases hh)
        (by intro hps; rcases hps with hh | hh <;> cases hh)
      exact InvB_requestSelf h1 i { e with pc := .afterAngkutReq }
        (hsetget _ _ rfl) hpend .angkut
        (by intro hps; rcases hps with hh | hh <;> cases hh)
    · have h1 := InvB_setEnt hB i e { e with pc := .afterNasiReq }
        hget hpend (hB.datLe e hemem)
        (by intro haj; rcases haj with hh | hh | hh | hh <;> cases hh)
        (by intro hps; rcases hps with hh | hh <;> cases hh)
      exact InvB_requestSelf h1 i { e with pc := .afterNasiReq }
        (hsetget _ _ rfl) hpend .nasi
        (by intro hps; rcases hps with hh | hh <;> cases hh)
  | afterAngkutReq =>
    simp only [execEnt, hpc]
    have h1 := InvB_irrel hB (σ.rcount + 1)
    have h2 := InvB_setEnt h1 i e { e with pc := .afterAngkutTimeout }
      hget hpend (hB.datLe e hemem)
      (by intro haj; rcases haj with hh | hh | hh | hh <;> cases hh)
      (by intro hps; rcases hps with hh | hh <;> cases hh)
    exact InvB_schedSelf h2 i { e with pc := .afterAngkutTimeout }
      (hsetget _ _ rfl) hpend
      (by have hx := hstream σ.rcount; simp only [setEnt]; nlinarith)
      (by intro hps; rcases hps with hh | hh <;> cases hh)
  | afterAngkutTimeout =>
    simp only [execEnt, hpc]
    split
    · have h1 := InvB_releaseCall hB i hilen hpend .angkut
      have hpend1 : pendingFor (releaseCall σ .angkut) i = 0 := by
        rw [pendingFor_releaseCall]; exact hpend
      have h2 := InvB_setEnt h1 i e { e with pc := .afterNasiReq }
        (by rw [releaseCall_ents]; exact hget) hpend1 (hB.datLe e hemem)
        (by intro haj; rcases haj with hh | hh | hh | hh <;> cases hh)
        (by intro hps; rcases hps with hh | hh <;> cases hh)
      exact InvB_requestSelf h2 i { e with pc := .afterNasiReq }
        (hsetget _ _ (releaseCall_ents σ .angkut)) hpend1 .nasi
        (by intro hps; rcases hps with hh | hh <;> cases hh)
    · have h1 := InvB_setEnt hB i e
        { e with drainLeft := min 5 σ.angkutQ.items.length, pc := .afterDrainGet }
        hget hpend (hB.datLe e hemem)
        (by intro haj; rcases haj with hh | hh | hh | hh <;> cases hh)
        (by intro hps; rcases hps with hh | hh <;> cases hh)
      exact InvB_getSelf h1 i
        { e with drainLeft := min 5 σ.angkutQ.items.length, pc := .afterDrainGet }
        (hsetget _ _ rfl) hpend .angkutQ
        (by intro hh hps; rcases hps with h2 | h2 <;> cases h2)
        (by intro hh; cases hh)
  | afterDrainGet =>
    simp only [execEnt, hpc]
    split
    · have h1 := InvB_releaseCall hB i hilen hpend .angkut
      have hpend1 : pendingFor (releaseCall σ .angkut) i = 0 := by
        rw [pendingFor_releaseCall]; exact hpend
      have h2 := InvB_setEnt h1 i e { e with drainLeft := 0, pc := .afterNasiReq }
        (by rw [releaseCall_ents]; exact hget) hpend1 (hB.datLe e hemem)
        (by intro haj; rcases haj with hh | hh | hh | hh <;> cases hh)
        (by intro hps; rcases hps with hh | hh <;> cases hh)
      exact InvB_requestSelf h2 i { e with drainLeft := 0, pc := .afterNasiReq }
        (hsetget _ _ (releaseCall_ents σ .angkut)) hpend1 .nasi
        (by intro hps; rcases hps with hh | hh <;> cases hh)
    · have h1 := InvB_setEnt hB i e
        ⟨.afterDrainGet, e.datang, e.mulai, e.svc, e.idx, e.drainLeft - 1⟩
        hget hpend (hB.datLe e hemem)
        (by intro haj; rcases haj with hh | hh | hh | hh <;> cases hh)
        (by intro hps; rcases hps with hh | hh <;> cases hh)
      exact InvB_getSelf h1 i
        ⟨.afterDrainGet, e.datang, e.mulai, e.svc, e.idx, e.drainLeft - 1⟩
        (hsetget _ _ rfl) hpend .angkutQ
        (by intro hh hps; rcases hps with h2 | h2 <;> cases h2)
        (by intro hh; cases hh)
  | afterNasiReq =>
    simp only [execEnt, hpc]
    have h1 := InvB_irrel hB (σ.rcount + 1)
    have h2 := InvB_setEnt h1 i e { e with pc := .afterNasiTimeout }
      hget hpend (hB.datLe e hemem)
      (by intro haj; rcases haj with hh | hh | hh | hh <;> cases hh)
      (by intro hps; rcases hps with hh | hh <;> cases hh)
    exact InvB_schedSelf h2 i { e with pc := .afterNasiTimeout }
      (hsetget _ _ rfl) hpend
      (by have hx := hstream σ.rcount; simp only [setEnt]; nlinarith)
      (by intro hps; rcases hps with hh | hh <;> cases hh)
  | afterNasiTimeout =>
    simp only [execEnt, hpc]
    have h1 := InvB_releaseCall hB i hilen hpend .nasi
    have hpend1 : pendingFor (releaseCall σ .nasi) i = 0 := by
      rw [pendingFor_releaseCall]; exact hpend
    have h2 := InvB_setEnt h1 i e { e with pc := .afterAntrianPut }
      (by rw [releaseCall_ents]; exact hget) hpend1 (hB.datLe e hemem)
      (by intro haj; rcases haj with hh | hh | hh | hh <;> cases hh)
      (by intro hps; rcases hps with hh | hh <;> cases hh)
    exact InvB_putSelf h2 i { e with pc := .afterAntrianPut }
      (hsetget _ _ (releaseCall_ents σ .nasi)) hpend1 .antrianQ i
      (by intro hps; rcases hps with hh | hh <;> cases hh)
  | afterAntrianPut =>
    simp only [execEnt, hpc]
    have h1 := InvB_samples hB (σ.samples ++ [⟨σ.now, σ.antrianQ.items.length⟩])
    have h2 := InvB_setEnt h1 i e
      ⟨.afterStaffReq, e.datang, σ.now, e.svc, argminIdx (σ.staff.map Resrc.users),
        e.drainLeft⟩
      hget hpend (hB.datLe e hemem)
      (fun _ => ⟨hB.datLe e hemem, le_refl _⟩)
      (by intro hps; rcases hps with hh | hh <;> cases hh)
    exact InvB_requestSelf h2 i
      ⟨.afterStaffReq, e.datang, σ.now, e.svc, argminIdx (σ.staff.map Resrc.users),
        e.drainLeft⟩
      (hsetget _ _ rfl) hpend _
      (by intro hps; rcases hps with hh | hh <;> cases hh)
  | afterStaffReq =>
    simp only [execEnt, hpc]
    have hjoin0 := hB.joinInv e hemem (by rw [hpc]; exact Or.inl rfl)
    have hx := hstream σ.rcount
    have hMIN : σ.cfg.MIN_SERVICE_TIME = cfg.MIN_SERVICE_TIME := by rw [hB.cfgEq]
    have hMAX : σ.cfg.MAX_SERVICE_TIME = cfg.MAX_SERVICE_TIME := by rw [hB.cfgEq]
    have hs : 0 ≤ σ.cfg.MIN_SERVICE_TIME +
        (σ.cfg.MAX_SERVICE_TIME - σ.cfg.MIN_SERVICE_TIME) * stream σ.rcount := by
      rw [hMIN, hMAX]
      nlinarith
    have h1 := InvB_irrel hB (σ.rcount + 1)
    have h2 := InvB_setEnt h1 i e
      ⟨.afterStaffTimeout, e.datang, e.mulai, σ.cfg.MIN_SERVICE_TIME +
        (σ.cfg.MAX_SERVICE_TIME - σ.cfg.MIN_SERVICE_TIME) * stream σ.rcount,
        e.idx, e.drainLeft⟩
      hget hpend (hB.datLe e hemem)
      (fun _ => hjoin0)
      (fun _ => hs)
    exact InvB_schedSelf h2 i
      ⟨.afterStaffTimeout, e.datang, e.mulai, σ.cfg.MIN_SERVICE_TIME +
        (σ.cfg.MAX_SERVICE_TIME - σ.cfg.MIN_SERVICE_TIME) * stream σ.rcount,
        e.idx, e.drainLeft⟩
      (hsetget _ _ rfl) hpend (by simp only [setEnt]; exact le_add_of_nonneg_right hs)
      (fun _ => add_le_add_right hjoin0.2 _)
  | afterStaffTimeout =>
    simp only [execEnt, hpc]
    have hjoin0 := hB.joinInv e hemem (by rw [hpc]; exact Or.inr (Or.inl rfl))
    have hsvc0 := hB.svcNN e hemem (by rw [hpc]; exact Or.inl rfl)
    have hbnd := hbound (by rw [hpc]; exact Or.inl rfl)
    have h1 := InvB_releaseCall hB i hilen hpend (.staff e.idx)
    have hpend1 : pendingFor (releaseCall σ (.staff e.idx)) i = 0 := by
      rw [pendingFor_releaseCall]; exact hpend
    have h2 := InvB_setEnt h1 i e { e with pc := .afterAntrianGet }
      (by rw [releaseCall_ents]; exact hget) hpend1 (hB.datLe e hemem)
      (fun _ => hjoin0)
      (fun _ => hsvc0)
    exact InvB_getSelf h2 i { e with pc := .afterAntrianGet }
      (hsetget _ _ (releaseCall_ents σ _)) hpend1 .antrianQ
      (by intro hh; cases hh)
      (fun _ => hbnd)
  | afterAntrianGet =>
    simp only [execEnt, hpc]
    have hjoin0 := hB.joinInv e hemem (by rw [hpc]; exact Or.inr (Or.inr (Or.inl rfl)))
    have hsvc0 := hB.svcNN e hemem (by rw [hpc]; exact Or.inr rfl)
    have hbnd := hbound (by rw [hpc]; exact Or.inr rfl)
    have h1 := InvB_recsAppend hB
      ⟨i, e.datang, e.mulai, σ.now, e.mulai - e.datang, e.svc, e.idx + 1⟩
      (sub_nonneg.mpr hjoin0.1) hsvc0 hbnd
    exact InvB_setEnt h1 i e { e with pc := .done }
      hget hpend (hB.datLe e hemem)
      (fun _ => hjoin0)
      (by intro hps; rcases hps with hh | hh <;> cases hh)
  | done =>
    simp only [execEnt, hpc]
    exact hB

theorem InvB_spawn {cfg : Config} {σ : SimState} (hB : InvB cfg σ) (g : Nat) :
    InvB cfg { σ with ents := σ.ents ++ [⟨.start, 0, 0, 0, 0, 0⟩], genCount := g } := by
  refine ⟨hB.cfgEq, hB.nowNN, hB.evTime, ?_, ?_, ?_, ?_, ?_, ?_, ?_, ?_, hB.recsTime⟩
  · intro e0 he0
    rcases List.mem_append.mp he0 with h | h
    · exact hB.datLe e0 h
    · rw [List.mem_singleton] at h
      subst h
      exact hB.nowNN
  · intro e0 he0 haj
    rcases List.mem_append.mp he0 with h | h
    · exact hB.joinInv e0 h haj
    · rw [List.mem_singleton] at h
      subst h
      rcases haj with hh | hh | hh | hh <;> cases hh
  · intro e0 he0 hps
    rcases List.mem_append.mp he0 with h | h
    · exact hB.svcNN e0 h hps
    · rw [List.mem_singleton] at h
      subst h
      rcases hps with hh | hh <;> cases hh
  · intro ev hev j hact e0 hget0 hps
    rcases Nat.lt_trichotomy j σ.ents.length with hj | hj | hj
    · rw [List.get?_append hj] at hget0
      exact hB.svcEv ev hev j hact e0 hget0 hps
    · subst hj
      rw [List.get?_concat_length] at hget0
      injection hget0 with hg
      subst hg
      rcases hps with hh | hh <;> cases hh
    · rw [List.get?_eq_none.mpr (by simp; omega)] at hget0
      cases hget0
  · intro m hm e0 hget0
    rcases Nat.lt_trichotomy m σ.ents.length with hj | hj | hj
    · rw [List.get?_append hj] at hget0
      exact hB.getterSvc m hm e0 hget0
    · subst hj
      rw [List.get?_concat_length] at hget0
      injection hget0 with hg
      subst hg
      simpa using hB.nowNN
    · rw [List.get?_eq_none.mpr (by simp; omega)] at hget0
      cases hget0
  · intro m hm e0 hget0
    rcases Nat.lt_trichotomy m σ.ents.length with hj | hj | hj
    · rw [List.get?_append hj] at hget0
      exact hB.grantSafe m hm e0 hget0
    · subst hj
      rw [List.get?_concat_length] at hget0
      injection hget0 with hg
      subst hg
      intro hps
      rcases hps with hh | hh <;> cases hh
    · rw [List.get?_eq_none.mpr (by simp; omega)] at hget0
      cases hget0
  · intro j
    exact hB.uniq j
  · intro j hj
    apply hB.hz
    simp at hj
    omega

theorem InvB_schedGen {cfg : Config} {σ : SimState} (hB : InvB cfg σ)
    {t : ℚ} {pr : Nat} (ht : σ.now ≤ t) :
    InvB cfg (sched σ t pr (.resume .gen)) := by
  refine ⟨hB.cfgEq, hB.nowNN, ?_, hB.datLe, hB.joinInv, hB.svcNN, ?_, hB.getterSvc,
    hB.grantSafe, ?_, ?_, hB.recsTime⟩
  · intro ev hev
    rcases List.mem_append.mp hev with h | h
    · exact hB.evTime ev h
    · rw [List.mem_singleton] at h
      subst h
      exact ht
  · intro ev hev j hact e0 hget0 hps
    rcases List.mem_append.mp hev with h | h
    · exact hB.svcEv ev h j hact e0 hget0 hps
    · rw [List.mem_singleton] at h
      subst h
      simp only [actFor] at hact
      exact Option.noConfusion hact
  · intro j
    rw [pendingFor_sched]
    rw [if_neg (show ¬ actFor (Act.resume Pid.gen) = some j by simp [actFor])]
    have := hB.uniq j
    omega
  · intro j hj
    rw [pendingFor_sched]
    rw [if_neg (show ¬ actFor (Act.resume Pid.gen) = some j by simp [actFor])]
    have := hB.hz j hj
    omega

theorem runProc_gen_invB {cfg : Config} {σ : SimState} {stream : ℕ → ℚ}
    (hstream : ∀ n, 0 ≤ stream n) (hmean : 0 ≤ cfg.MEAN_INTERARRIVAL)
    (hgen : σ.genCount = σ.ents.length)
    (hB : InvB cfg σ) : InvB cfg (runProc σ stream .gen) := by
  unfold runProc
  dsimp only
  split
  · have hB1 := InvB_spawn hB (σ.genCount + 1)
    have hget1 : (σ.ents ++ [(⟨.start, 0, 0, 0, 0, 0⟩ : Ent)]).get? σ.genCount =
        some ⟨.start, 0, 0, 0, 0, 0⟩ := by
      rw [hgen]
      exact List.get?_concat_length _ _
    refine InvB_schedGen (InvB_irrel ?_ _) ?_
    · exact InvB_schedSelf hB1 σ.genCount ⟨.start, 0, 0, 0, 0, 0⟩ hget1
        (hB.hz _ (le_of_eq hgen.symm)) (le_refl _)
        (by intro hps; rcases hps with hh | hh <;> cases hh)
    · exact le_add_of_nonneg_right
        (mul_nonneg (by rw [hB.cfgEq]; exact hmean) (hstream _))
  · exact hB

theorem InvB_putWake {cfg : Config} {σ : SimState} (hB : InvB cfg σ) (sid : StoreId)
    {s2 : Store} {w : Nat} (heq : getTrigger (getStore σ sid) = (s2, some w)) :
    InvB cfg (sched (countGet (setStore σ sid s2) sid) σ.now 1 (.resume (.ent w))) := by
  obtain ⟨hq, y, hy⟩ := getTrigger_pop2 heq
  cases sid with
  | angkutQ =>
    have hq2 : σ.angkutQ.getQueue = w :: s2.getQueue := hq
    have hwmem : w ∈ σ.angkutQ.getQueue := by
      rw [hq2]
      exact List.mem_cons_self _ _
    refine ⟨hB.cfgEq, hB.nowNN, ?_, hB.datLe, hB.joinInv, hB.svcNN, ?_, ?_, ?_, ?_,
      ?_, hB.recsTime⟩
    · intro ev hev
      rcases List.mem_append.mp hev with h | h
      · exact hB.evTime ev h
      · rw [List.mem_singleton] at h
        subst h
        exact le_refl _
    · intro ev hev j hact e0 hget0 hps
      rcases List.mem_append.mp hev with h | h
      · exact hB.svcEv ev h j hact e0 hget0 hps
      · rw [List.mem_singleton] at h
        subst h
        simp only [actFor, Option.some.injEq] at hact
        subst hact
        exact absurd hps (hB.grantSafe _
          (Or.inr (Or.inr (Or.inr (Or.inr hwmem)))) e0 hget0)
    · intro m hm e0 hg
      exact hB.getterSvc m hm e0 hg
    · intro m hm e0 hg
      apply hB.grantSafe m ?_ e0 hg
      rcases hm with h|h|h|h|h
      · exact Or.inl h
      · exact Or.inr (Or.inl h)
      · exact Or.inr (Or.inr (Or.inl h))
      · exact Or.inr (Or.inr (Or.inr (Or.inl h)))
      · refine Or.inr (Or.inr (Or.inr (Or.inr ?_)))
        rw [hq2]
        exact List.mem_cons_of_mem _ h
    · intro j
      rw [pendingFor_putWake σ _ heq j]
      exact hB.uniq j
    · intro j hj
      rw [pendingFor_putWake σ _ heq j]
      exact hB.hz j hj
  | antrianQ =>
    have hq2 : σ.antrianQ.getQueue = w :: s2.getQueue := hq
    have hwmem : w ∈ σ.antrianQ.getQueue := by
      rw [hq2]
      exact List.mem_cons_self _ _
    refine ⟨hB.cfgEq, hB.nowNN, ?_, hB.datLe, hB.joinInv, hB.svcNN, ?_, ?_, ?_, ?_,
      ?_, hB.recsTime⟩
    · intro ev hev
      rcases List.mem_append.mp hev with h | h
      · exact hB.evTime ev h
      · rw [List.mem_singleton] at h
        subst h
        exact le_refl _
    · intro ev hev j hact e0 hget0 hps
      rcases List.mem_append.mp hev with h | h
      · exact hB.svcEv ev h j hact e0 hget0 hps
      · rw [List.mem_singleton] at h
        subst h
        simp only [actFor, Option.some.injEq] at hact
        subst hact
        exact hB.getterSvc _ hwmem e0 hget0
    · intro m hm e0 hg
      apply hB.getterSvc m ?_ e0 hg
      rw [hq2]
      exact List.mem_cons_of_mem _ hm
    · intro m hm e0 hg
      exact hB.grantSafe m hm e0 hg
    · intro j
      rw [pendingFor_putWake σ _ heq j]
      exact hB.uniq j
    · intro j hj
      rw [pendingFor_putWake σ _ heq j]
      exact hB.hz j hj

theorem InvB_resGrant {cfg : Config} {σ : SimState} (hB : InvB cfg σ) (rid : ResId)
    {r2 : Resrc} {w : Nat} (heq : reqTrigger (getRes σ rid) = (r2, some w)) :
    InvB cfg (sched (logGrant (setRes σ rid r2) rid w) σ.now 1 (.resume (.ent w))) := by
  obtain ⟨hq, hu2, hcap, hlt⟩ := reqTrigger_grant heq
  have hhead : w ∈ (getRes σ rid).queue := by
    rw [hq]
    exact List.mem_cons_self _ _
  have hwmem : ∀ e0, σ.ents.get? w = some e0 → ¬ PostSvc e0.pc := by
    apply hB.grantSafe
    cases rid with
    | lauk => exact Or.inl hhead
    | angkut => exact Or.inr (Or.inl hhead)
    | nasi => exact Or.inr (Or.inr (Or.inl hhead))
    | staff j =>
      rcases Nat.lt_or_ge j σ.staff.length with hj | hj
      · exact Or.inr (Or.inr (Or.inr (Or.inl ⟨_, staff_getD_mem _ _ hj, hhead⟩)))
      · exfalso
        have hh2 : w ∈ (σ.staff.getD j ⟨0, 0, []⟩).queue := hhead
        rw [List.getD_eq_default _ _ hj] at hh2
        exact List.not_mem_nil w hh2
  refine ⟨?_, ?_, ?_, ?_, ?_, ?_, ?_, ?_, ?_, ?_, ?_, ?_⟩
  · cases rid <;> exact hB.cfgEq
  · cases rid <;> exact hB.nowNN
  · cases rid <;>
      (intro ev hev
       rcases List.mem_append.mp hev with h | h
       · exact hB.evTime ev h
       · rw [List.mem_singleton] at h
         subst h
         exact le_refl _)
  · cases rid <;> exact hB.datLe
  · cases rid <;> exact hB.joinInv
  · cases rid <;> exact hB.svcNN
  · cases rid <;>
      (intro ev hev j hact e0 hget0 hps
       rcases List.mem_append.mp hev with h | h
       · exact hB.svcEv ev h j hact e0 hget0 hps
       · rw [List.mem_singleton] at h
         subst h
         simp only [actFor, Option.some.injEq] at hact
         subst hact
         exact absurd hps (hwmem e0 hget0))
  · cases rid <;> exact hB.getterSvc
  · cases rid with
    | lauk =>
      intro m hm e0 hg
      apply hB.grantSafe m ?_ e0 hg
      rcases hm with h|h|h|h|h
      · left
        have hq2 : σ.lauk.queue = w :: r2.queue := hq
        rw [hq2]
        exact List.mem_cons_of_mem _ h
      · exact Or.inr (Or.inl h)
      · exact Or.inr (Or.inr (Or.inl h))
      · exact Or.inr (Or.inr (Or.inr (Or.inl h)))
      · exact Or.inr (Or.inr (Or.inr (Or.inr h)))
    | angkut =>
      intro m hm e0 hg
      apply hB.grantSafe m ?_ e0 hg
      rcases hm with h|h|h|h|h
      · exact Or.inl h
      · refine Or.inr (Or.inl ?_)
        have hq2 : σ.angkut.queue = w :: r2.queue := hq
        rw [hq2]
        exact List.mem_cons_of_mem _ h
      · exact Or.inr (Or.inr (Or.inl h))
      · exact Or.inr (Or.inr (Or.inr (Or.inl h)))
      · exact Or.inr (Or.inr (Or.inr (Or.inr h)))
    | nasi =>
      intro m hm e0 hg
      apply hB.grantSafe m ?_ e0 hg
      rcases hm with h|h|h|h|h
      · exact Or.inl h
      · exact Or.inr (Or.inl h)
      · refine Or.inr (Or.inr (Or.inl ?_))
        have hq2 : σ.nasi.queue = w :: r2.queue := hq
        rw [hq2]
        exact List.mem_cons_of_mem _ h
      · exact Or.inr (Or.inr (Or.inr (Or.inl h)))
      · exact Or.inr (Or.inr (Or.inr (Or.inr h)))
    | staff k =>
      intro m hm e0 hg
      apply hB.grantSafe m ?_ e0 hg
      rcases hm with h|h|h|h|h
      · exact Or.inl h
      · exact Or.inr (Or.inl h)
      · exact Or.inr (Or.inr (Or.inl h))
      · rcases h with ⟨r, hr, hmr⟩
        rcases List.mem_or_eq_of_mem_set hr with h1 | h2
        · exact Or.inr (Or.inr (Or.inr (Or.inl ⟨r, h1, hmr⟩)))
        · have hmr2 : m ∈ r2.queue := h2 ▸ hmr
          rcases Nat.lt_or_ge k σ.staff.length with hk | hk
          · refine Or.inr (Or.inr (Or.inr (Or.inl ⟨_, staff_getD_mem _ _ hk, ?_⟩)))
            have hq2 : (σ.staff.getD k ⟨0, 0, []⟩).queue = w :: r2.queue := hq
            rw [hq2]
            exact List.mem_cons_of_mem _ hmr2
          · exfalso
            have hq2 : (σ.staff.getD k ⟨0, 0, []⟩).queue = w :: r2.queue := hq
            rw [List.getD_eq_default _ _ hk] at hq2
            cases hq2
      · exact Or.inr (Or.inr (Or.inr (Or.inr h)))
  · intro j
    rw [pendingFor_resGrant σ rid heq j]
    exact hB.uniq j
  · intro j hj
    rw [pendingFor_resGrant σ rid heq j]
    apply hB.hz
    cases rid <;> exact hj
  · cases rid <;> exact hB.recsTime

theorem runProc_invB {cfg : Config} {σ : SimState} {stream : ℕ → ℚ} (p : Pid)
    (hstream : ∀ n, 0 ≤ stream n)
    (hmin : 0 ≤ cfg.MIN_SERVICE_TIME)
    (hmaxmin : cfg.MIN_SERVICE_TIME ≤ cfg.MAX_SERVICE_TIME)
    (hmean : 0 ≤ cfg.MEAN_INTERARRIVAL)
    (hgen : σ.genCount = σ.ents.length)
    (hB : InvB cfg σ)
    (hcur : ∀ j, p = .ent j → pendingFor σ j = 0 ∧
      ∀ e0, σ.ents.get? j = some e0 → PostSvc e0.pc → e0.mulai + e0.svc ≤ σ.now) :
    InvB cfg (runProc σ stream p) := by
  cases p with
  | gen => exact runProc_gen_invB hstream hmean hgen hB
  | ent i =>
    unfold runProc
    dsimp only
    split
    · exact hB
    · rename_i e hgi
      obtain ⟨hp0, hbb⟩ := hcur i rfl
      exact execEnt_invB hstream hmin hmaxmin hB hgi hp0 (hbb e hgi)

theorem execAct_invB {cfg : Config} {σ : SimState} {stream : ℕ → ℚ} (a : Act)
    (hstream : ∀ n, 0 ≤ stream n)
    (hmin : 0 ≤ cfg.MIN_SERVICE_TIME)
    (hmaxmin : cfg.MIN_SERVICE_TIME ≤ cfg.MAX_SERVICE_TIME)
    (hmean : 0 ≤ cfg.MEAN_INTERARRIVAL)
    (hgen : σ.genCount = σ.ents.length)
    (hB : InvB cfg σ)
    (hcur : ∀ j, actFor a = some j → pendingFor σ j = 0 ∧
      ∀ e0, σ.ents.get? j = some e0 → PostSvc e0.pc → e0.mulai + e0.svc ≤ σ.now) :
    InvB cfg (execAct σ stream a) := by
  cases a with
  | resume p =>
    exact runProc_invB p hstream hmin hmaxmin hmean hgen hB
      (fun j hj => hcur j (by rw [hj]; rfl))
  | storePut sid p =>
    cases sid <;> simp only [execAct] <;> split <;>
      first
      | (rename_i s2 w heq
         have hB1 := InvB_putWake hB _ heq
         refine runProc_invB p hstream hmin hmaxmin hmean ?_ hB1 ?_
         · exact hgen
         · intro j hj
           obtain ⟨hp0, hbb⟩ := hcur j (by rw [hj]; rfl)
           refine ⟨?_, hbb⟩
           rw [pendingFor_putWake σ _ heq j]
           exact hp0)
      | (apply runProc_invB p hstream hmin hmaxmin hmean hgen hB
         intro j hj
         exact hcur j (by rw [hj]; rfl))
  | releaseRes rid =>
    simp only [execAct]
    split
    · rename_i r2 w heq
      exact InvB_resGrant hB rid heq
    · exact hB

theorem step_invB {cfg : Config} {σ σ2 : SimState} {stream : ℕ → ℚ}
    (hstream : ∀ n, 0 ≤ stream n)
    (hmin : 0 ≤ cfg.MIN_SERVICE_TIME)
    (hmaxmin : cfg.MIN_SERVICE_TIME ≤ cfg.MAX_SERVICE_TIME)
    (hmean : 0 ≤ cfg.MEAN_INTERARRIVAL)
    (hgen : σ.genCount = σ.ents.length)
    (hB : InvB cfg σ) (hs : step σ stream = some σ2) : InvB cfg σ2 := by
  unfold step at hs
  cases hfm : findMin σ.events with
  | none => rw [hfm] at hs; cases hs
  | some ev =>
    rw [hfm] at hs
    injection hs with hs
    subst hs
    have hev := findMin_mem hfm
    have hmin2 := findMin_time_le hfm
    have hB0 := InvB_advance hB ev hev hmin2
    refine execAct_invB ev.act hstream hmin hmaxmin hmean ?_ hB0 ?_
    · exact hgen
    intro j hact
    obtain ⟨hne, h1, h2, h3, h4, h5, h6⟩ := uniq_resolve (hB.uniq j) hev hact
    refine ⟨?_, ?_⟩
    · show (σ.events.erase ev).countP (fun e0 => actFor e0.act == some j)
        + σ.lauk.queue.count j + σ.angkut.queue.count j + σ.nasi.queue.count j
        + (σ.staff.map fun r => r.queue.count j).sum
        + σ.angkutQ.getQueue.count j + σ.antrianQ.getQueue.count j = 0
      have hcz : (σ.events.erase ev).countP (fun e0 => actFor e0.act == some j) = 0 := by
        rw [List.countP_eq_zero]
        intro e0 he0
        simpa using hne e0 he0
      have hsz : (σ.staff.map fun r => r.queue.count j).sum = 0 := by
        rw [List.sum_eq_zero_iff]
        intro x hx
        rcases List.mem_map.mp hx with ⟨r, hr, rfl⟩
        exact List.count_eq_zero.mpr (h4 r hr)
      rw [hcz, hsz, List.count_eq_zero.mpr h1, List.count_eq_zero.mpr h2,
        List.count_eq_zero.mpr h3, List.count_eq_zero.mpr h5, List.count_eq_zero.mpr h6]
    · intro e0 hg0 hps
      exact hB.svcEv ev hev j hact e0 hg0 hps

theorem stepN_invAB {cfg : Config} {stream : ℕ → ℚ}
    (hstream : ∀ n, 0 ≤ stream n)
    (hmin : 0 ≤ cfg.MIN_SERVICE_TIME)
    (hmaxmin : cfg.MIN_SERVICE_TIME ≤ cfg.MAX_SERVICE_TIME)
    (hmean : 0 ≤ cfg.MEAN_INTERARRIVAL) :
    ∀ (n : Nat) (σ : SimState), InvA cfg σ → InvB cfg σ →
      InvB cfg (stepN stream n σ) := by
  intro n
  induction n with
  | zero => intro σ hA hB; exact hB
  | succ m ih =>
    intro σ hA hB
    unfold stepN
    cases hs : step σ stream with
    | none => exact hB
    | some σ2 =>
      exact ih σ2 (step_invA hA hs)
        (step_invB hstream hmin hmaxmin hmean hA.genEq hB hs)

theorem initState_invB (cfg : Config) : InvB cfg (initState cfg) := by
  refine ⟨rfl, le_refl 0, ?_, ?_, ?_, ?_, ?_, ?_, ?_, ?_, ?_, ?_⟩
  · intro ev hev
    simp only [initState, List.mem_singleton] at hev
    subst hev
    exact le_refl 0
  · intro e he
    simp [initState] at he
  · intro e he
    simp [initState] at he
  · intro e he
    simp [initState] at he
  · intro ev hev j hact e0 hget0 hps
    simp only [initState, List.mem_singleton] at hev
    subst hev
    simp [actFor] at hact
  · intro m hm
    simp [initState] at hm
  · intro m hm
    simp only [initState] at hm
    rcases hm with h|h|h|h|h
    · simp at h
    · simp at h
    · simp at h
    · rcases h with ⟨r, hr, hmr⟩
      rw [List.eq_of_mem_replicate hr] at hmr
      simp at hmr
    · simp at h
  · intro j
    unfold pendingFor
    simp [initState, actFor]
  · intro j hj
    unfold pendingFor
    simp [initState, actFor]
  · intro r hr
    simp [initState] at hr

theorem runSim_invB (cfg : Config) (stream : ℕ → ℚ)
    (hstream : ∀ n, 0 ≤ stream n)
    (hmin : 0 ≤ cfg.MIN_SERVICE_TIME)
    (hmaxmin : cfg.MIN_SERVICE_TIME ≤ cfg.MAX_SERVICE_TIME)
    (hmean : 0 ≤ cfg.MEAN_INTERARRIVAL) (fuel : Nat) :
    InvB cfg (runSim cfg stream fuel) :=
  stepN_invAB hstream hmin hmaxmin hmean fuel (initState cfg)
    (initState_invA cfg) (initState_invB cfg)

/-- **C2 (amended)**: under non-degenerate timing inputs (non-negative raw
draws, `0 ≤ MIN_SERVICE_TIME ≤ MAX_SERVICE_TIME`, non-negative mean
interarrival), every record of a run satisfies `tunggu ≥ 0` and
`mulai ≤ selesai`, but for `layanan` only the inequality
`layanan ≤ selesai - mulai` holds in general: `selesai` is the grant time
plus `layanan`, and the staff grant may come strictly after the queue-join
instant recorded in `mulai`. -/
theorem C2_amended (cfg : Config) (stream : ℕ → ℚ) (fuel : Nat)
    (hstream : ∀ n, 0 ≤ stream n)
    (hmin : 0 ≤ cfg.MIN_SERVICE_TIME)
    (hmaxmin : cfg.MIN_SERVICE_TIME ≤ cfg.MAX_SERVICE_TIME)
    (hmean : 0 ≤ cfg.MEAN_INTERARRIVAL) :
    ∀ r ∈ (runSim cfg stream fuel).recs,
      0 ≤ r.tunggu ∧ r.mulai ≤ r.selesai ∧ r.layanan ≤ r.selesai - r.mulai := by
  intro r hr
  obtain ⟨h1, h2, h3⟩ :=
    (runSim_invB cfg stream hstream hmin hmaxmin hmean fuel).recsTime r hr
  refine ⟨h1, by linarith, by linarith⟩

/-- Witness for the amended C2: the single record of the population-1 run
satisfies all three (in)equalities. -/
theorem C2_witness :
    0 ≤ ((⟨0, 0, 1, 2, 1, 1, 1⟩ : MhsRecord)).tunggu ∧
      ((⟨0, 0, 1, 2, 1, 1, 1⟩ : MhsRecord)).mulai ≤
        ((⟨0, 0, 1, 2, 1, 1, 1⟩ : MhsRecord)).selesai ∧
      ((⟨0, 0, 1, 2, 1, 1, 1⟩ : MhsRecord)).layanan ≤
        ((⟨0, 0, 1, 2, 1, 1, 1⟩ : MhsRecord)).selesai -
          ((⟨0, 0, 1, 2, 1, 1, 1⟩ : MhsRecord)).mulai :=
  C2_amended cfgOne zstream 40 (fun _ => le_refl 0)
    (by norm_num [cfgOne]) (by norm_num [cfgOne]) (by norm_num [cfgOne])
    ⟨0, 0, 1, 2, 1, 1, 1⟩ (by decide)

end Kantin
